import Mathlib

/-!
Verification of the intune-diagnostics core against its specification.

The Python sources are shallowly embedded: strings are `List Char` (ASCII),
Python dicts are association lists in insertion order, and the relevant
functions from
  backend/mcp_servers/instructions/server.py,
  backend/mcp_servers/instructions/store.py,
  backend/mcp_servers/instructions/parser.py,
  backend/services/instructions_parser.py,
  backend/services/entity_resolution.py,
  backend/services/scenario_state.py
are translated as executable Lean definitions.
-/

set_option maxRecDepth 20000

/-! ## Basic string utilities mirroring Python semantics -/

/-- ASCII uppercase test. -/
def isAsciiUpper (c : Char) : Bool := 'A' ≤ c && c ≤ 'Z'

/-- ASCII lowercase test. -/
def isAsciiLowerCh (c : Char) : Bool := 'a' ≤ c && c ≤ 'z'

/-- ASCII letter test, the regex class [A-Za-z]. -/
def isAsciiAlpha (c : Char) : Bool := isAsciiUpper c || isAsciiLowerCh c

/-- ASCII digit test, the regex class [0-9]. -/
def isDigitCh (c : Char) : Bool := '0' ≤ c && c ≤ '9'

/-- Lower-case one ASCII character, as Python str.lower does on ASCII input. -/
def lowerChar (c : Char) : Char :=
  if isAsciiUpper c then Char.ofNat (c.toNat + 32) else c

/-- Python str.lower on an ASCII string. -/
def lowerStr (s : List Char) : List Char := s.map lowerChar

/-- The whitespace characters stripped by Python str.strip and matched by regex \s. -/
def isPySpace (c : Char) : Bool :=
  c = ' ' || c = '\t' || c = '\n' || c = '\r' || c = '\x0b' || c = '\x0c'

/-- Python str.strip(): remove leading and trailing whitespace. -/
def pyStrip (s : List Char) : List Char :=
  ((s.dropWhile isPySpace).reverse.dropWhile isPySpace).reverse

/-- Python substring containment, the `in` operator on strings.
The empty string is a substring of everything. -/
def isSubstr : List Char → List Char → Bool
  | n, [] => n.isEmpty
  | n, c :: t => n.isPrefixOf (c :: t) || isSubstr n t

/-- Python str.replace for a single-character pattern (used for '_'→'-', ' '→'-'). -/
def replaceChar (a b : Char) (s : List Char) : List Char :=
  s.map (fun c => if c = a then b else c)

/-- The regex word-character class \w on ASCII text: [A-Za-z0-9_]. -/
def isWordChar (c : Char) : Bool := isAsciiAlpha c || isDigitCh c || c = '_'

/-- Fuel-based runner for findWords (fuel ≥ length always suffices; the
fuel-exhausted branch is unreachable). -/
def findWordsF : Nat → List Char → List (List Char)
  | 0, _ => []
  | _, [] => []
  | fuel + 1, c :: t =>
    if isWordChar c then
      ((c :: t).takeWhile isWordChar) :: findWordsF fuel ((c :: t).dropWhile isWordChar)
    else
      findWordsF fuel t

/-- re.findall for the pattern \w+ : the maximal runs of word characters. -/
def findWords (s : List Char) : List (List Char) := findWordsF s.length s

/-! ## Association lists: Python dict semantics (insertion order preserved) -/

/-- Python dict lookup (`d[k]` / `k in d`), first binding wins; keys are unique
in a real dict so this is exact. -/
def alookup {β : Type} : List (List Char × β) → List Char → Option β
  | [], _ => none
  | (k', v) :: t, k => if k' = k then some v else alookup t k

/-- Python dict assignment `d[k] = v`: update in place if the key exists
(keeping its position), else append. -/
def dictInsert {β : Type} : List (List Char × β) → List Char → β → List (List Char × β)
  | [], k, v => [(k, v)]
  | (k', v') :: t, k, v =>
    if k' = k then (k', v) :: t else (k', v') :: dictInsert t k v

/-! ## Stable descending sort

Python's list.sort / sorted with reverse=True is stable: equal keys keep their
original relative order. Insertion sort where a new element is placed after
every element with a key ≥ its own reproduces that. -/

def insertDesc {α : Type} (key : α → Int) (x : α) : List α → List α
  | [] => [x]
  | y :: ys => if key x ≤ key y then y :: insertDesc key x ys else x :: y :: ys

def sortDesc {α : Type} (key : α → Int) (l : List α) : List α :=
  l.foldl (fun acc x => insertDesc key x acc) []

/-! ## Placeholder tokens

The regex <([A-Za-z][A-Za-z0-9_]*)> shared by
InstructionsParser.PLACEHOLDER_PATTERN (parser.py) and
substitute_placeholders (server.py). -/

/-- A character allowed after the first character of a placeholder name. -/
def isNameChar (c : Char) : Bool := isAsciiAlpha c || isDigitCh c || c = '_'

/-- Whether a string is a valid placeholder name: [A-Za-z][A-Za-z0-9_]*. -/
def validName : List Char → Bool
  | [] => false
  | c :: cs => isAsciiAlpha c && cs.all isNameChar

/-- Try to read a placeholder name and closing '>' at the head of the input
(the part of the token regex after the opening '<'). Returns the name and the
rest of the input after '>'. -/
def parseName (l : List Char) : Option (List Char × List Char) :=
  match l with
  | [] => none
  | c :: cs =>
    if isAsciiAlpha c then
      match cs.dropWhile isNameChar with
      | '>' :: r => some (c :: cs.takeWhile isNameChar, r)
      | _ => none
    else none

/-- Fuel-based runner for findTokens (fuel ≥ length always suffices). -/
def findTokensF : Nat → List Char → List (List Char)
  | 0, _ => []
  | _, [] => []
  | fuel + 1, c :: cs =>
    if c = '<' then
      match parseName cs with
      | some (n, rest) => n :: findTokensF fuel rest
      | none => findTokensF fuel cs
    else findTokensF fuel cs

/-- re.finditer over the token pattern: scan left to right, on a failed match
attempt advance one character; on a match continue after the closing '>'.
Returns the matched group-1 names in order (one entry per occurrence). -/
def findTokens (l : List Char) : List (List Char) := findTokensF l.length l

/-- Fuel-based runner for pyReplace (fuel ≥ length always suffices). -/
def pyReplaceF : Nat → List Char → Char → List Char → List Char → List Char
  | 0, l, _, _, _ => l
  | _, [], _, _, _ => []
  | fuel + 1, c :: cs, o, os, new =>
    if (o :: os).isPrefixOf (c :: cs) then
      new ++ pyReplaceF fuel ((c :: cs).drop (os.length + 1)) o os new
    else
      c :: pyReplaceF fuel cs o os new

/-- Python str.replace(old, new) with old = o :: os (always nonempty here):
replace non-overlapping occurrences left to right; the replacement text is
not rescanned. -/
def pyReplace (l : List Char) (o : Char) (os new : List Char) : List Char :=
  pyReplaceF l.length l o os new

/-! ## server.py: substitute_placeholders -/

/-- Result record of substitute_placeholders (models.SubstitutionResult). -/
structure SubstResult where
  queryText : List Char
  used : List (List Char × List Char)
  warnings : List (List Char)
deriving DecidableEq, Repr

/-- The f-string warning emitted for an unsupplied placeholder occurrence. -/
def warnMsg (n : List Char) : List Char :=
  "Placeholder <".data ++ n ++ "> not provided - left as-is".data

/-- The loop body of substitute_placeholders: iterate over the token matches
found in the original query text, accumulating the (whole-text) replacements,
the used-values dict and the warnings list. -/
def substLoop (vals : List (List Char × List Char)) :
    List (List Char) → List Char → List (List Char × List Char) →
    List (List Char) → SubstResult
  | [], q, used, ws => ⟨q, used, ws⟩
  | n :: ts, q, used, ws =>
    match alookup vals n with
    | some v =>
      substLoop vals ts (pyReplace q '<' (n ++ ['>']) v) (dictInsert used n v) ws
    | none => substLoop vals ts q used (ws ++ [warnMsg n])

/-- server.py substitute_placeholders(step, placeholder_values), applied to the
step's query_text: find all placeholder tokens in the original text; for each
occurrence, if the name is supplied, record it as used and replace every
occurrence of the token in the accumulated query; otherwise append a warning. -/
def substitutePlaceholders (queryText : List Char)
    (vals : List (List Char × List Char)) : SubstResult :=
  substLoop vals (findTokens queryText) queryText [] []

/-! ## server.py: validation -/

/-- models.PlaceholderType. -/
inductive PlaceholderType where
  | guid | guidList | datetime | string | integer | boolean
deriving DecidableEq, Repr

/-- models.Placeholder restricted to the fields validation reads. -/
structure Placeholder where
  type : PlaceholderType
  required : Bool
deriving DecidableEq, Repr

/-- models.ValidationError. -/
structure ValidationError where
  placeholder : List Char
  issue : List Char
  expectedFormat : Option (List Char)
deriving DecidableEq, Repr

/-- models.ValidationResult. -/
structure ValidationResult where
  valid : Bool
  errors : List ValidationError
deriving DecidableEq, Repr

/-- The regex class [0-9a-f] under re.IGNORECASE: any hex digit. -/
def isHexDigit (c : Char) : Bool :=
  isDigitCh c || ('a' ≤ c && c ≤ 'f') || ('A' ≤ c && c ≤ 'F')

/-- Consume exactly n characters satisfying p, returning the rest. -/
def consumeRun (p : Char → Bool) : Nat → List Char → Option (List Char)
  | 0, l => some l
  | _ + 1, [] => none
  | n + 1, c :: cs => if p c then consumeRun p n cs else none

/-- Consume one expected character. -/
def consumeChar (a : Char) : List Char → Option (List Char)
  | [] => none
  | c :: cs => if c = a then some cs else none

/-- Composition helper for chained Option consumers. -/
def obind {α β : Type} (x : Option α) (f : α → Option β) : Option β :=
  match x with
  | some a => f a
  | none => none

/-- The canonical 8-4-4-4-12 GUID body: does the regex body
[0-9a-f]{8}-[0-9a-f]{4}-[0-9a-f]{4}-[0-9a-f]{4}-[0-9a-f]{12} (IGNORECASE)
consume the whole input? -/
def guidShape (s : List Char) : Bool :=
  (obind (consumeRun isHexDigit 8 s) fun s1 =>
   obind (consumeChar '-' s1) fun s2 =>
   obind (consumeRun isHexDigit 4 s2) fun s3 =>
   obind (consumeChar '-' s3) fun s4 =>
   obind (consumeRun isHexDigit 4 s4) fun s5 =>
   obind (consumeChar '-' s5) fun s6 =>
   obind (consumeRun isHexDigit 4 s6) fun s7 =>
   obind (consumeChar '-' s7) fun s8 =>
   consumeRun isHexDigit 12 s8) = some []

/-- Python re's end anchor: `$` matches at the end of the string or just
before a single newline at the end. So pattern^...$ accepts body or body+"\n". -/
def endAnchored (body : List Char → Bool) (s : List Char) : Bool :=
  body s ||
    (match s.reverse with
     | '\n' :: rest => body rest.reverse
     | _ => false)

/-- server.py is_valid_guid: re.match of the anchored GUID pattern with
re.IGNORECASE (including the `$`-before-trailing-newline behaviour). -/
def isValidGuid (s : List Char) : Bool := endAnchored guidShape s

/-- Body of the date-only pattern \d{4}-\d{2}-\d{2}. -/
def dateShape (s : List Char) : Bool :=
  (obind (consumeRun isDigitCh 4 s) fun s1 =>
   obind (consumeChar '-' s1) fun s2 =>
   obind (consumeRun isDigitCh 2 s2) fun s3 =>
   obind (consumeChar '-' s3) fun s4 =>
   consumeRun isDigitCh 2 s4) = some []

/-- Consume a maximal nonempty run of characters satisfying p. -/
def consumePlus (p : Char → Bool) : List Char → Option (List Char)
  | [] => none
  | c :: cs => if p c then some (cs.dropWhile p) else none

/-- Body of the date-time pattern \d{4}-\d{2}-\d{2}\s+\d{2}:\d{2}:\d{2}. -/
def dateTimeShape (s : List Char) : Bool :=
  (obind (consumeRun isDigitCh 4 s) fun s1 =>
   obind (consumeChar '-' s1) fun s2 =>
   obind (consumeRun isDigitCh 2 s2) fun s3 =>
   obind (consumeChar '-' s3) fun s4 =>
   obind (consumeRun isDigitCh 2 s4) fun s5 =>
   obind (consumePlus isPySpace s5) fun s6 =>
   obind (consumeRun isDigitCh 2 s6) fun s7 =>
   obind (consumeChar ':' s7) fun s8 =>
   obind (consumeRun isDigitCh 2 s8) fun s9 =>
   obind (consumeChar ':' s9) fun s10 =>
   consumeRun isDigitCh 2 s10) = some []

/-- The unanchored prefix pattern datetime\(["\']?\d{4}-\d{2}-\d{2}:
re.match only requires it to match at the start of the string. -/
def datetimePrefixShape (s : List Char) : Bool :=
  match s with
  | 'd' :: 'a' :: 't' :: 'e' :: 't' :: 'i' :: 'm' :: 'e' :: '(' :: rest =>
    (let rest2 := match rest with
      | '"' :: r => r
      | '\'' :: r => r
      | r => r
     (obind (consumeRun isDigitCh 4 rest2) fun s1 =>
      obind (consumeChar '-' s1) fun s2 =>
      obind (consumeRun isDigitCh 2 s2) fun s3 =>
      obind (consumeChar '-' s3) fun s4 =>
      consumeRun isDigitCh 2 s4).isSome)
  | _ => false

/-- server.py is_valid_datetime: any of the three re.match patterns
(the first two end-anchored, the third a pure prefix match). -/
def isValidDatetime (s : List Char) : Bool :=
  endAnchored dateShape s || endAnchored dateTimeShape s || datetimePrefixShape s

/-- server.py validate_placeholder_values: walk the step's placeholders dict;
a required placeholder missing from the values yields a
"Required placeholder not provided" error; a supplied GUID or DATETIME value
failing its regex yields an "Invalid ... format" error; other types are not
checked. valid is true iff no error was collected. -/
def validateErrors (placeholders : List (List Char × Placeholder))
    (vals : List (List Char × List Char)) : List ValidationError :=
  match placeholders with
  | [] => []
  | (name, ph) :: rest =>
    match alookup vals name with
    | none =>
      if ph.required then
        ⟨name, "Required placeholder not provided".data, none⟩ ::
          validateErrors rest vals
      else
        validateErrors rest vals
    | some v =>
      (match ph.type with
       | PlaceholderType.guid =>
         if isValidGuid v then []
         else [⟨name, "Invalid GUID format".data,
               some "xxxxxxxx-xxxx-xxxx-xxxx-xxxxxxxxxxxx".data⟩]
       | PlaceholderType.datetime =>
         if isValidDatetime v then []
         else [⟨name, "Invalid datetime format".data,
               some "YYYY-MM-DD HH:MM:SS or datetime(YYYY-MM-DD HH:MM:SS)".data⟩]
       | _ => []) ++ validateErrors rest vals

/-- server.py validate_placeholder_values. -/
def validatePlaceholderValues (placeholders : List (List Char × Placeholder))
    (vals : List (List Char × List Char)) : ValidationResult :=
  let errors := validateErrors placeholders vals
  ⟨errors.length = 0, errors⟩

/-! ## models.py: record types shared by parser.py and store.py

Fields that the parser sets to a constant default and no claim-relevant code
ever reads (extracts, provides_for_steps, rate_limit_rows, execution_mode,
output_format, and the constant description/example/format_hint of a parsed
Placeholder) are omitted from the embedding. -/

/-- models.QueryStep (the fields the parser populates and the claims read). -/
structure QueryStep where
  stepNumber : Nat
  title : List Char
  purpose : List Char
  queryId : List Char
  queryText : List Char
  placeholders : List (List Char × Placeholder)
  optionalStep : Bool
deriving DecidableEq, Repr

/-- models.Scenario (the fields the parser populates and the claims read). -/
structure Scenario where
  slug : List Char
  title : List Char
  domain : List Char
  keywords : List (List Char)
  requiredIdentifiers : List (List Char)
  aliases : List (List Char)
  description : List Char
  criticalRequirements : List (List Char)
  steps : List QueryStep
deriving DecidableEq, Repr

/-- models.ScenarioSummary. -/
structure ScenarioSummary where
  slug : List Char
  title : List Char
  domain : List Char
  description : List Char
  requiredIdentifiers : List (List Char)
  numQueries : Nat
  keywords : List (List Char)
deriving DecidableEq, Repr

/-! ## store.py: ScenarioStore -/

/-- The store's scenario dict (slug-keyed, insertion-ordered; the key of each
entry is the scenario's own slug) and keyword index. -/
structure ScenarioStore where
  scenarios : List Scenario
  keywordIndex : List (List Char × List (List Char))
deriving DecidableEq, Repr

/-- Python dict assignment self.scenarios[scenario.slug] = scenario:
replace in place when the slug is present, else append. -/
def storePut : List Scenario → Scenario → List Scenario
  | [], sc => [sc]
  | s :: rest, sc => if s.slug = sc.slug then sc :: rest else s :: storePut rest sc

/-- One step of the keyword-index loop in add_scenario: create the entry if
missing, then append the slug if not already present. -/
def indexAdd (idx : List (List Char × List (List Char))) (k : List Char)
    (slug : List Char) : List (List Char × List (List Char)) :=
  match alookup idx k with
  | none => idx ++ [(k, [slug])]
  | some slugs =>
    if slug ∈ slugs then idx else dictInsert idx k (slugs ++ [slug])

/-- store.py ScenarioStore.add_scenario. -/
def addScenario (st : ScenarioStore) (sc : Scenario) : ScenarioStore :=
  let allKeywords :=
    sc.keywords ++ [lowerStr sc.title, sc.slug]
      ++ (if sc.domain ≠ [] then [lowerStr sc.domain] else [])
      ++ (if sc.aliases ≠ [] then sc.aliases.map lowerStr else [])
  { scenarios := storePut st.scenarios sc
    keywordIndex :=
      allKeywords.foldl (fun idx k => indexAdd idx (lowerStr (pyStrip k)) sc.slug)
        st.keywordIndex }

/-- The empty store. -/
def emptyStore : ScenarioStore := ⟨[], []⟩

/-- ' '.join(...) / '\n'.join(...). -/
def joinWith (sep : List Char) : List (List Char) → List Char
  | [] => []
  | [x] => x
  | x :: rest => x ++ sep ++ joinWith sep rest

/-- The domain filter of search: `if domain and scenario.domain != domain:
continue` — a scenario passes when no (truthy) domain argument is given or
its domain matches. -/
def domainPass (domain : Option (List Char)) (sc : Scenario) : Bool :=
  match domain with
  | none => true
  | some d => d = [] || sc.domain = d

/-- The per-scenario score of ScenarioStore.search, the sum of the
PRIORITY 1-8 contributions (all contributions are integers; Python's float
arithmetic is exact on them). -/
def scoreScenario (queryLower normalizedQuery : List Char)
    (queryWords : List (List Char)) (sc : Scenario) : Int :=
  (if queryLower = sc.slug ∨ normalizedQuery = sc.slug then 100 else 0)
  + (if sc.aliases.any (fun a =>
        queryLower = pyStrip (lowerStr a) ∨
        normalizedQuery = replaceChar ' ' '-' (replaceChar '_' '-' (pyStrip (lowerStr a))))
     then 95 else 0)
  + (if isSubstr normalizedQuery sc.slug then 50 else 0)
  + (if isSubstr queryLower (lowerStr sc.title) then 40 else 0)
  + (if sc.aliases.any (fun a => isSubstr queryLower (lowerStr a)) then 35 else 0)
  + 20 * (sc.keywords.countP (fun kw =>
      isSubstr (lowerStr kw) queryLower || isSubstr queryLower (lowerStr kw)))
  + (if isSubstr queryLower (lowerStr sc.description) then 10 else 0)
  + 5 * (queryWords.countP (fun w =>
      isSubstr w (lowerStr (sc.title ++ ' ' :: sc.description ++ ' ' :: joinWith [' '] sc.keywords))))

/-- query.lower().strip() of search. -/
def queryLowerOf (query : List Char) : List Char := pyStrip (lowerStr query)

/-- The normalized query of search: lower-cased query with '_' and ' '
replaced by '-'. -/
def normalizedQueryOf (query : List Char) : List Char :=
  replaceChar ' ' '-' (replaceChar '_' '-' (queryLowerOf query))

/-- The scores dict of ScenarioStore.search: slug → positive score, in store
insertion order, restricted to scenarios passing the domain filter. -/
def searchScores (st : ScenarioStore) (query : List Char)
    (domain : Option (List Char)) : List (List Char × Int) :=
  st.scenarios.filterMap (fun sc =>
    if domainPass domain sc then
      let s := scoreScenario (queryLowerOf query) (normalizedQueryOf query)
        (findWords (queryLowerOf query)) sc
      if 0 < s then some (sc.slug, s) else none
    else none)

/-- sorted(scores.keys(), key=lambda s: scores[s], reverse=True): the slugs
with their scores, stably sorted by descending score. -/
def searchRanked (st : ScenarioStore) (query : List Char)
    (domain : Option (List Char)) : List (List Char × Int) :=
  sortDesc Prod.snd (searchScores st query domain)

/-- store.py ScenarioStore._make_summary. -/
def makeSummary (sc : Scenario) : ScenarioSummary :=
  { slug := sc.slug
    title := sc.title
    domain := sc.domain
    description :=
      if 200 < sc.description.length then sc.description.take 200 ++ "...".data
      else sc.description
    requiredIdentifiers := sc.requiredIdentifiers
    numQueries := sc.steps.length
    keywords := sc.keywords }

/-- store.py ScenarioStore.search: rank the positive-scoring scenarios and
return their summaries. -/
def searchStore (st : ScenarioStore) (query : List Char)
    (domain : Option (List Char)) : List ScenarioSummary :=
  (searchRanked st query domain).filterMap (fun p =>
    (st.scenarios.find? (fun sc => sc.slug == p.1)).map makeSummary)

/-! ## services/scenario_state.py -/

/-- scenario_state.ScenarioStep; the Any-typed result payload is modelled as a
string. -/
structure ExecStep where
  stepNumber : Nat
  queryId : List Char
  status : List Char
  result : Option (List Char)
  error : Option (List Char)
deriving DecidableEq, Repr

/-- scenario_state.ScenarioExecution (the unused context dict is omitted).
steps is the int-keyed dict in insertion order; each entry's key is its
step_number field. -/
structure ScenarioExecution where
  scenarioSlug : List Char
  totalSteps : Nat
  currentStep : Nat
  steps : List ExecStep
deriving DecidableEq, Repr

/-- Python dict lookup self.steps[n] / `n in self.steps`. -/
def lookupStep : List ExecStep → Nat → Option ExecStep
  | [], _ => none
  | t :: rest, n => if t.stepNumber = n then some t else lookupStep rest n

/-- Python dict assignment self.steps[s.step_number] = s: replace in place
when the key is present, else append. -/
def stepsPut : List ExecStep → ExecStep → List ExecStep
  | [], s => [s]
  | t :: rest, s =>
    if t.stepNumber = s.stepNumber then s :: rest else t :: stepsPut rest s

/-- scenario_state.ScenarioStateTracker.start_scenario: one pending ExecStep
per step definition (step_number, query_id), current_step = 0,
total_steps = len(steps). -/
def startScenario (slug : List Char) (defs : List (Nat × List Char)) :
    ScenarioExecution :=
  { scenarioSlug := slug
    totalSteps := defs.length
    currentStep := 0
    steps := defs.foldl
      (fun acc d => stepsPut acc ⟨d.1, d.2, "pending".data, none, none⟩) [] }

/-- scenario_state.ScenarioExecution.is_complete. -/
def isComplete (e : ScenarioExecution) : Bool := e.totalSteps ≤ e.currentStep

/-- scenario_state.ScenarioExecution.get_next_pending_step: the first step in
dict insertion order whose status is "pending". -/
def getNextPendingStep (e : ScenarioExecution) : Option ExecStep :=
  e.steps.find? (fun s => s.status == "pending".data)

/-- scenario_state.ScenarioExecution.mark_step_complete: if the step number is
present, overwrite its status/result and advance current_step; otherwise do
nothing. -/
def markStepComplete (e : ScenarioExecution) (n : Nat) (result : List Char) :
    ScenarioExecution :=
  match lookupStep e.steps n with
  | none => e
  | some s =>
    { e with
      steps := stepsPut e.steps { s with status := "completed".data, result := some result }
      currentStep := max e.currentStep n }

/-- scenario_state.ScenarioExecution.mark_step_failed. -/
def markStepFailed (e : ScenarioExecution) (n : Nat) (err : List Char) :
    ScenarioExecution :=
  match lookupStep e.steps n with
  | none => e
  | some s =>
    { e with
      steps := stepsPut e.steps { s with status := "failed".data, error := some err }
      currentStep := max e.currentStep n }

/-- scenario_state.ScenarioExecution.mark_step_skipped. -/
def markStepSkipped (e : ScenarioExecution) (n : Nat) (reason : List Char) :
    ScenarioExecution :=
  match lookupStep e.steps n with
  | none => e
  | some s =>
    { e with
      steps := stepsPut e.steps { s with status := "skipped".data, error := some reason }
      currentStep := max e.currentStep n }

/-- A Mark* call, for reasoning about arbitrary call sequences. -/
inductive MarkOp where
  | complete (n : Nat) (result : List Char)
  | failed (n : Nat) (err : List Char)
  | skipped (n : Nat) (reason : List Char)
deriving DecidableEq, Repr

def applyMark (e : ScenarioExecution) : MarkOp → ScenarioExecution
  | .complete n r => markStepComplete e n r
  | .failed n r => markStepFailed e n r
  | .skipped n r => markStepSkipped e n r

def applyMarks (e : ScenarioExecution) (ops : List MarkOp) : ScenarioExecution :=
  ops.foldl applyMark e

/-! ## services/entity_resolution.py -/

/-- The entity-resolution token class [A-Za-z0-9_-]+ (note: '-' is a token
character, so GUIDs tokenize as single tokens). -/
def isEntTokenChar (c : Char) : Bool := isWordChar c || c = '-'

/-- Fuel-based runner for the tokenizer. -/
def entTokenizeF : Nat → List Char → List (List Char)
  | 0, _ => []
  | _, [] => []
  | fuel + 1, c :: t =>
    if isEntTokenChar c then
      ((c :: t).takeWhile isEntTokenChar) ::
        entTokenizeF fuel ((c :: t).dropWhile isEntTokenChar)
    else
      entTokenizeF fuel t

/-- entity_resolution.tokenize: re.findall of [A-Za-z0-9_-]+. -/
def entTokenize (s : List Char) : List (List Char) := entTokenizeF s.length s

/-- entity_resolution.ROLE_KEYWORDS, in dict order. -/
def roleKeywords : List (List Char × List (List Char)) :=
  [("device_id".data, ["device".data, "machine".data, "endpoint".data, "computer".data]),
   ("account_id".data, ["account".data, "tenant".data, "user".data, "principal".data, "aad".data]),
   ("context_id".data, ["context".data, "ctx".data]),
   ("policy_id".data, ["policy".data, "payload".data, "config".data, "configuration".data])]

/-- entity_resolution.GuidCandidate. -/
structure GuidCandidate where
  guid : List Char
  index : Nat
  windowText : List Char
  roleScores : List (List Char × Nat)
deriving DecidableEq, Repr

/-- The ±4 token slice tokens[max(0,i-4):min(len,i+5)] (Nat subtraction
truncates at 0 exactly like max(0, i-4)). -/
def windowSlice {α : Type} (l : List α) (i : Nat) : List α :=
  (l.drop (i - 4)).take (min l.length (i + 5) - (i - 4))

/-- entity_resolution.extract_guid_candidates: every token that fully matches
the GUID regex becomes a candidate carrying its ±4-token window and the count
of each role's trigger words occurring (as whole tokens) in that window. -/
def extractGuidCandidates (message : List Char) : List GuidCandidate :=
  let tokens := entTokenize message
  let lowerTokens := tokens.map lowerStr
  tokens.enum.filterMap (fun it =>
    if guidShape it.2 then
      some
        { guid := it.2
          index := it.1
          windowText := joinWith [' '] (windowSlice tokens it.1)
          roleScores := roleKeywords.filterMap (fun rk =>
            let sc := rk.2.countP (fun kw => kw ∈ windowSlice lowerTokens it.1)
            if sc ≠ 0 then some (rk.1, sc) else none) }
    else none)

/-- Backtracking matcher for the regex fragment [^a-z0-9]*G at a fixed
position: some number of characters outside [a-z0-9], then the literal G. -/
def starThenMatch (guid : List Char) : List Char → Bool
  | [] => guid.isEmpty
  | c :: cs =>
    guid.isPrefixOf (c :: cs) ||
    (!(isAsciiLowerCh c || isDigitCh c) && starThenMatch guid cs)

/-- re.search of root + [^a-z0-9]* + re.escape(guid): try every start
position. -/
def searchRootGuid (root guid : List Char) : List Char → Bool
  | [] => root.isEmpty && starThenMatch guid []
  | c :: cs =>
    (root.isPrefixOf (c :: cs) && starThenMatch guid ((c :: cs).drop root.length)) ||
    searchRootGuid root guid cs

/-- The per-candidate score of a slot in resolve_entities: the candidate's
role-window score for the slot name plus a +2 boost when the slot's root word
occurs immediately before the candidate GUID (per the root-specific regexes,
searched in the lower-cased message). -/
def slotScores (messageLower : List Char) (candidates : List GuidCandidate)
    (slot : List Char) : List (List Char × Int) :=
  candidates.map (fun c =>
    let base : Int := Int.ofNat ((alookup c.roleScores slot).getD 0)
    let base := base +
      (if "device".data.isPrefixOf slot && searchRootGuid "device".data c.guid messageLower
       then 2 else 0)
    let base := base +
      (if "account".data.isPrefixOf slot && searchRootGuid "account".data c.guid messageLower
       then 2 else 0)
    let base := base +
      (if "context".data.isPrefixOf slot && searchRootGuid "context".data c.guid messageLower
       then 2 else 0)
    let base := base +
      (if "policy".data.isPrefixOf slot && searchRootGuid "policy".data c.guid messageLower
       then 2 else 0)
    (c.guid, base))

/-- slot_scores.sort(key=score, reverse=True), stable. -/
def slotSorted (messageLower : List Char) (candidates : List GuidCandidate)
    (slot : List Char) : List (List Char × Int) :=
  sortDesc Prod.snd (slotScores messageLower candidates slot)

/-- Result of resolve_entities: the resolved dict plus the meta dict's
candidates / heuristic / ambiguities entries. -/
structure ResolveResult where
  resolved : List (List Char × List Char)
  candidates : List GuidCandidate
  heuristic : Bool
  ambiguities : List (List Char × List (List Char × Int))
deriving DecidableEq, Repr

/-- second_score: the runner-up's score, or the -1 sentinel when only one
candidate exists. -/
def runnerUp : List (List Char × Int) → Int
  | [] => -1
  | p :: _ => p.2

/-- One iteration of the per-slot loop of resolve_entities. -/
def resolveSlotStep (messageLower : List Char) (candidates : List GuidCandidate)
    (acc : List (List Char × List Char) × List (List Char × List (List Char × Int)))
    (slot : List Char) :
    List (List Char × List Char) × List (List Char × List (List Char × Int)) :=
  match slotSorted messageLower candidates slot with
  | [] => acc
  | (topGuid, topScore) :: rest =>
    if 0 < topScore ∧ 2 ≤ topScore - runnerUp rest then
      (dictInsert acc.1 slot topGuid, acc.2)
    else
      (acc.1, acc.2 ++ [(slot, (topGuid, topScore) :: rest)])

/-- entity_resolution.resolve_entities (the intent argument is unused by the
function body and omitted): extract candidates; with no candidate return
empty results; with exactly one candidate and one needed slot assign it
directly; otherwise score each slot's candidates and assign only on a clear
margin, else record an ambiguity. -/
def resolveEntities (message : List Char) (neededSlots : List (List Char)) :
    ResolveResult :=
  let candidates := extractGuidCandidates message
  if candidates.isEmpty then
    { resolved := [], candidates := candidates, heuristic := true, ambiguities := [] }
  else if candidates.length = 1 ∧ neededSlots.length = 1 then
    { resolved :=
        [(neededSlots.headD [],
          (candidates.headD ⟨[], 0, [], []⟩).guid)]
      candidates := candidates
      heuristic := true
      ambiguities := [] }
  else
    let r := neededSlots.foldl (resolveSlotStep (lowerStr message) candidates) ([], [])
    { resolved := r.1, candidates := candidates, heuristic := true, ambiguities := r.2 }

/-! ## parser.py: InstructionsParser -/

/-- Python str.splitlines on '\n'-separated ASCII text (no trailing empty
line for a terminating newline). -/
def splitLinesRev (acc : List (List Char)) (cur : List Char) :
    List Char → List (List Char)
  | [] => if cur = [] then acc.reverse else (cur.reverse :: acc).reverse
  | '\n' :: rest => splitLinesRev (cur.reverse :: acc) [] rest
  | c :: rest => splitLinesRev acc (c :: cur) rest

def splitLines (s : List Char) : List (List Char) := splitLinesRev [] [] s

/-- Case-insensitive literal prefix match (re.IGNORECASE on ASCII), returning
the rest of the input. -/
def stripCI : List Char → List Char → Option (List Char)
  | [], s => some s
  | _ :: _, [] => none
  | p :: ps, c :: cs => if lowerChar c = lowerChar p then stripCI ps cs else none

/-- SCENARIO_HEADING = ^###\s+(.*) — returns group(1) on a match.
A fourth '#' is not whitespace, so #### headings do not match. -/
def matchScenarioHeading : List Char → Option (List Char)
  | '#' :: '#' :: '#' :: c :: rest =>
    if isPySpace c then some ((c :: rest).dropWhile isPySpace) else none
  | _ => none

/-- METADATA_START = ^<!--\s*$ . -/
def isMetadataStart : List Char → Bool
  | '<' :: '!' :: '-' :: '-' :: rest => rest.all isPySpace
  | _ => false

/-- METADATA_END = ^-->\s*$ . -/
def isMetadataEnd : List Char → Bool
  | '-' :: '-' :: '>' :: rest => rest.all isPySpace
  | _ => false

/-- METADATA_FIELD = ^-\s*(\w+):\s*(.*)$ applied to the stripped line. -/
def matchMetadataField : List Char → Option (List Char × List Char)
  | '-' :: rest =>
    let r1 := rest.dropWhile isPySpace
    let name := r1.takeWhile isWordChar
    if name = [] then none
    else
      match r1.dropWhile isWordChar with
      | ':' :: r2 => some (name, r2.dropWhile isPySpace)
      | _ => none
  | _ => none

def backtickChar : Char := Char.ofNat 96

/-- CODE_BLOCK_START = ^```(kusto|sql|kql)?\s*$ with re.IGNORECASE. -/
def isCodeFenceStart (line : List Char) : Bool :=
  line.take 3 = [backtickChar, backtickChar, backtickChar] &&
    (let rest := line.drop 3
     rest.all isPySpace ||
     (match stripCI "kusto".data rest with
      | some r => r.all isPySpace
      | none => false) ||
     (match stripCI "sql".data rest with
      | some r => r.all isPySpace
      | none => false) ||
     (match stripCI "kql".data rest with
      | some r => r.all isPySpace
      | none => false))

/-- CODE_BLOCK_END = ^```\s*$ . -/
def isCodeFenceEnd (line : List Char) : Bool :=
  line.take 3 = [backtickChar, backtickChar, backtickChar] &&
    (line.drop 3).all isPySpace

/-- The lazy group (.*?)\*\* : the text before the first "**" occurrence, or
none when "**" never occurs. -/
def untilStarStar : List Char → Option (List Char)
  | [] => none
  | '*' :: '*' :: _ => some []
  | c :: rest =>
    match untilStarStar rest with
    | some t => some (c :: t)
    | none => none

/-- int() on a digit run. -/
def natOfDigits (l : List Char) : Nat :=
  l.foldl (fun n c => 10 * n + (c.toNat - 48)) 0

/-- STEP_HEADING = ^\*\*Step\s+(\d+):\s+(.*?)\*\* with re.IGNORECASE —
returns (int(group(1)), group(2)). -/
def matchStepHeading (line : List Char) : Option (Nat × List Char) :=
  match line with
  | '*' :: '*' :: rest =>
    match stripCI "step".data rest with
    | none => none
    | some r1 =>
      match r1 with
      | [] => none
      | c :: cr =>
        if isPySpace c then
          let r2 := cr.dropWhile isPySpace
          let ds := r2.takeWhile isDigitCh
          if ds = [] then none
          else
            match r2.dropWhile isDigitCh with
            | ':' :: r3 =>
              (match r3 with
               | [] => none
               | d :: dr =>
                 if isPySpace d then
                   match untilStarStar (dr.dropWhile isPySpace) with
                   | some t => some (natOfDigits ds, t)
                   | none => none
                 else none)
            | _ => none
        else none
  | _ => none

/-- PURPOSE_COMMENT = ^//\s*Purpose:\s*(.*) with re.IGNORECASE. -/
def matchPurpose (line : List Char) : Option (List Char) :=
  match line with
  | '/' :: '/' :: rest =>
    match stripCI "purpose".data (rest.dropWhile isPySpace) with
    | some (':' :: r2) => some (r2.dropWhile isPySpace)
    | _ => none
  | _ => none

/-- CRITICAL_SECTION = ^\*\*CRITICAL with re.IGNORECASE. -/
def isCriticalLine (line : List Char) : Bool :=
  match line with
  | '*' :: '*' :: rest => (stripCI "critical".data rest).isSome
  | _ => false

/-- EXECUTION_SECTION = ^\*\*EXECUTION\s+INSTRUCTIONS with re.IGNORECASE. -/
def isExecutionLine (line : List Char) : Bool :=
  match line with
  | '*' :: '*' :: rest =>
    match stripCI "execution".data rest with
    | some (c :: cr) =>
      isPySpace c && (stripCI "instructions".data (cr.dropWhile isPySpace)).isSome
    | _ => false
  | _ => false

/-- OUTPUT_FORMAT_SECTION = ^\*\*Output\s+Format with re.IGNORECASE. -/
def isOutputFormatLine (line : List Char) : Bool :=
  match line with
  | '*' :: '*' :: rest =>
    match stripCI "output".data rest with
    | some (c :: cr) =>
      isPySpace c && (stripCI "format".data (cr.dropWhile isPySpace)).isSome
    | _ => false
  | _ => false

/-- line.strip().startswith(("-", "*", "•")) of the critical-requirement
collector (applied here to the already-stripped line). -/
def isBulletHead : List Char → Bool
  | '-' :: _ => true
  | '*' :: _ => true
  | '•' :: _ => true
  | _ => false

/-- .lstrip("-*•"). -/
def lstripBullets (l : List Char) : List Char :=
  l.dropWhile (fun c => c = '-' || c = '*' || c = '•')

/-- [a-z0-9] test for slug generation. -/
def isLowerAlnum (c : Char) : Bool := isAsciiLowerCh c || isDigitCh c

/-- Collapse runs of '-' to a single '-'. -/
def collapseHyphens : List Char → List Char
  | [] => []
  | c :: rest =>
    match collapseHyphens rest with
    | '-' :: tail => if c = '-' then '-' :: tail else c :: '-' :: tail
    | other => c :: other

/-- InstructionsParser._generate_slug: lower-case, replace runs of
[^a-z0-9]+ by '-', strip '-'. -/
def generateSlug (title : List Char) : List Char :=
  let mapped := (lowerStr title).map (fun c => if isLowerAlnum c then c else '-')
  let collapsed := collapseHyphens mapped
  ((collapsed.dropWhile (· = '-')).reverse.dropWhile (· = '-')).reverse

/-- InstructionsParser._infer_placeholder_type. -/
def inferPlaceholderType (name : List Char) : PlaceholderType :=
  let nl := lowerStr name
  if isSubstr "id".data nl && !(isSubstr "list".data nl) then .guid
  else if isSubstr "list".data nl then .guidList
  else if isSubstr "time".data nl || isSubstr "date".data nl then .datetime
  else if isSubstr "count".data nl || isSubstr "limit".data nl then .integer
  else .string

/-- InstructionsParser._extract_placeholders: one Placeholder per distinct
token name, first occurrence wins, required=True, type inferred from the
name. -/
def extractPlaceholders (queryText : List Char) : List (List Char × Placeholder) :=
  (findTokens queryText).foldl
    (fun acc n =>
      match alookup acc n with
      | some _ => acc
      | none => acc ++ [(n, ⟨inferPlaceholderType n, true⟩)]) []

/-- Decimal digits of a Nat (for the query_id f-string). -/
def natDigitsF : Nat → Nat → List Char
  | 0, _ => []
  | _ + 1, n =>
    if n < 10 then [Char.ofNat (48 + n)]
    else natDigitsF n (n / 10) ++ [Char.ofNat (48 + n % 10)]

def natDigits (n : Nat) : List Char := natDigitsF (n + 1) n

/-- f-string query_id = slug + "_step" + number. -/
def mkQueryId (slug : List Char) (n : Nat) : List Char :=
  slug ++ "_step".data ++ natDigits n

/-- The mutable step dict of _parse_scenario before it is closed into a
QueryStep. -/
structure StepDraft where
  stepNumber : Nat
  title : List Char
  purpose : List Char
  queryId : List Char
  queryText : List Char
  optionalStep : Bool
deriving DecidableEq, Repr

/-- Closing a step dict into a QueryStep: placeholders are extracted only
when the query text is nonempty. -/
def closeStep (d : StepDraft) : QueryStep :=
  { stepNumber := d.stepNumber
    title := d.title
    purpose := d.purpose
    queryId := d.queryId
    queryText := d.queryText
    placeholders := if d.queryText ≠ [] then extractPlaceholders d.queryText else []
    optionalStep := d.optionalStep }

/-- The scenario_data dict plus the loop-local state of _parse_scenario. -/
structure PState where
  slug : List Char
  title : List Char
  domain : List Char
  keywords : List (List Char)
  requiredIdentifiers : List (List Char)
  aliases : List (List Char)
  description : List Char
  criticalRequirements : List (List Char)
  steps : List QueryStep
  inMetadata : Bool
  inCodeBlock : Bool
  inCritical : Bool
  inExecution : Bool
  inOutputFormat : Bool
  codeLines : List (List Char)
  currentStep : Option StepDraft
  descriptionLines : List (List Char)
deriving DecidableEq, Repr

/-- The initial state of _parse_scenario for a heading title. -/
def initPState (title : List Char) : PState :=
  { slug := generateSlug title, title := title, domain := [], keywords := []
    requiredIdentifiers := [], aliases := [], description := []
    criticalRequirements := [], steps := []
    inMetadata := false, inCodeBlock := false, inCritical := false
    inExecution := false, inOutputFormat := false
    codeLines := [], currentStep := none, descriptionLines := [] }

/-- Python value.split(","). -/
def splitComma : List Char → List (List Char)
  | [] => [[]]
  | c :: rest =>
    let r := splitComma rest
    if c = ',' then [] :: r
    else
      match r with
      | h :: t => (c :: h) :: t
      | [] => [[c]]

/-- The metadata-field branch of _parse_scenario: parse `- key: value` on the
stripped line and assign the known fields (unknown keys ignored). -/
def applyMetaField (st : PState) (line : List Char) : PState :=
  match matchMetadataField (pyStrip line) with
  | none => st
  | some (field, rawValue) =>
    let f := lowerStr field
    let v := pyStrip rawValue
    if f = "slug".data then { st with slug := v }
    else if f = "domain".data then { st with domain := v }
    else if f = "keywords".data then
      { st with keywords := (splitComma v).map pyStrip }
    else if f = "required_identifiers".data then
      { st with requiredIdentifiers := (splitComma v).map pyStrip }
    else if f = "aliases".data then
      { st with aliases := (splitComma v).map pyStrip }
    else if f = "description".data then { st with description := v }
    else st

/-- End of _parse_scenario: save the last step, fall back to the collected
description lines when no metadata description was set, and build the
Scenario (pydantic construction cannot fail on these inputs, so the
try/except is dead). -/
def finishScenario (st : PState) : Scenario :=
  let steps := match st.currentStep with
    | some d => st.steps ++ [closeStep d]
    | none => st.steps
  let desc := if st.description = [] && st.descriptionLines ≠ [] then
      joinWith [' '] st.descriptionLines
    else st.description
  { slug := st.slug, title := st.title, domain := st.domain
    keywords := st.keywords, requiredIdentifiers := st.requiredIdentifiers
    aliases := st.aliases, description := desc
    criticalRequirements := st.criticalRequirements, steps := steps }

/-- The while-loop of InstructionsParser._parse_scenario, one branch per
Python branch in source order; returns the Scenario together with the lines
remaining after the scenario (starting at the next ### heading if any). -/
def parseScenarioLoop (st : PState) :
    List (List Char) → Scenario × List (List Char)
  | [] => (finishScenario st, [])
  | line :: rest =>
    if (matchScenarioHeading line).isSome then
      (finishScenario st, line :: rest)
    else if isMetadataStart line then
      parseScenarioLoop { st with inMetadata := true } rest
    else if isMetadataEnd line && st.inMetadata then
      parseScenarioLoop { st with inMetadata := false } rest
    else if st.inMetadata then
      parseScenarioLoop (applyMetaField st line) rest
    else if isCriticalLine line then
      parseScenarioLoop { st with inCritical := true } rest
    else if isExecutionLine line then
      parseScenarioLoop { st with inExecution := true, inCritical := false } rest
    else if isOutputFormatLine line then
      parseScenarioLoop { st with inOutputFormat := true, inExecution := false } rest
    else if st.inCritical && isBulletHead (pyStrip line) then
      (let req := pyStrip (lstripBullets (pyStrip line))
       if req ≠ [] then
         parseScenarioLoop
           { st with criticalRequirements := st.criticalRequirements ++ [req] } rest
       else parseScenarioLoop st rest)
    else
      match matchStepHeading line with
      | some nt =>
        let steps' := match st.currentStep with
          | some d => st.steps ++ [closeStep d]
          | none => st.steps
        let stitle := pyStrip nt.2
        parseScenarioLoop
          { st with
            steps := steps'
            currentStep := some ⟨nt.1, stitle, [], mkQueryId st.slug nt.1, [],
              isSubstr "optional".data (lowerStr stitle)⟩
            codeLines := [] } rest
      | none =>
        if st.inCodeBlock && isCodeFenceEnd line then
          (let st' := { st with inCodeBlock := false, codeLines := [] }
           match st.currentStep with
           | some d =>
             if st.codeLines ≠ [] then
               (let d' := { d with queryText := pyStrip (joinWith ['\n'] st.codeLines) }
                parseScenarioLoop { st' with currentStep := some d' } rest)
             else parseScenarioLoop st' rest
           | none => parseScenarioLoop st' rest)
        else if isCodeFenceStart line && !st.inMetadata && !st.inCodeBlock then
          (let st' := { st with inCodeBlock := true, codeLines := [] }
           match st.currentStep with
           | some _ => parseScenarioLoop st' rest
           | none =>
             let n := st.steps.length + 1
             parseScenarioLoop
               { st' with currentStep := some ⟨n, st.title, [], mkQueryId st.slug n, [], false⟩ }
               rest)
        else if st.inCodeBlock then
          (match matchPurpose line, st.currentStep with
           | some p, some d =>
             parseScenarioLoop
               { st with currentStep := some ({ d with purpose := pyStrip p }) } rest
           | _, _ =>
             parseScenarioLoop { st with codeLines := st.codeLines ++ [line] } rest)
        else if st.currentStep.isNone && pyStrip line ≠ [] && !st.inMetadata then
          parseScenarioLoop
            { st with descriptionLines := st.descriptionLines ++ [pyStrip line] } rest
        else
          parseScenarioLoop st rest

/-- The outer loop of InstructionsParser.parse_content: find each ###
heading, parse its scenario, keep it only if it has at least one step.
fuel ≥ number of lines always suffices (each scenario consumes its heading
line). -/
def parseContentLines : Nat → List (List Char) → List Scenario
  | 0, _ => []
  | _, [] => []
  | fuel + 1, line :: rest =>
    match matchScenarioHeading line with
    | some g =>
      let pr := parseScenarioLoop (initPState (pyStrip g)) rest
      (if pr.1.steps ≠ [] then [pr.1] else []) ++ parseContentLines fuel pr.2
    | none => parseContentLines fuel rest

/-- InstructionsParser.parse_content. -/
def parseContent (content : List Char) : List Scenario :=
  let lines := splitLines content
  parseContentLines lines.length lines

/-! ## services/instructions_parser.py: the duplicate-title merge stage

The line scanner of this legacy parser is not needed by any claim; the
deduplication stage (the `# Deduplicate titles` block of parse_instructions)
is embedded on the scanned scenario records. Metadata fields are not touched
by that stage and are omitted. -/

/-- instructions_parser.InstructionScenario (the fields the dedup stage
reads). -/
structure InstrScenario where
  title : List Char
  descriptionLines : List (List Char)
  queries : List (List Char)
deriving DecidableEq, Repr

/-- The title/description/queries part of InstructionScenario.to_dict. -/
structure ScenarioDict where
  title : List Char
  description : List Char
  queries : List (List Char)
deriving DecidableEq, Repr

/-- InstructionScenario.to_dict: description = "\n".join of the truthy
description lines, stripped. -/
def toDict (sc : InstrScenario) : ScenarioDict :=
  { title := sc.title
    description := pyStrip (joinWith ['\n'] (sc.descriptionLines.filter (· ≠ [])))
    queries := sc.queries }

/-- u['queries'].extend(q for q in sc.queries if q not in u['queries']):
the generator is consumed while the list grows, so duplicates inside
sc.queries are also skipped. -/
def extendNoDup (base : List (List Char)) (qs : List (List Char)) :
    List (List Char) :=
  qs.foldl (fun acc q => if q ∈ acc then acc else acc ++ [q]) base

/-- The inner `for u in unique: ... break` of the dedup stage: merge sc into
the first dict with the same lower-cased title. -/
def mergeInto (sc : InstrScenario) : List ScenarioDict → List ScenarioDict
  | [] => []
  | u :: rest =>
    if lowerStr u.title = lowerStr sc.title then
      { u with
        queries := if sc.queries ≠ [] then extendNoDup u.queries sc.queries else u.queries
        description :=
          if sc.descriptionLines ≠ [] then
            pyStrip (u.description ++ '\n' :: joinWith ['\n'] sc.descriptionLines)
          else u.description } :: rest
    else u :: mergeInto sc rest

/-- The `# Deduplicate titles` block of parse_instructions: first occurrence
of each lower-cased title is kept (as its to_dict); later occurrences are
merged into it; finally dicts without queries are dropped. -/
def dedupScenarios (scenarios : List InstrScenario) : List ScenarioDict :=
  (scenarios.foldl
    (fun (acc : List (List Char) × List ScenarioDict) sc =>
      if lowerStr sc.title ∈ acc.1 then (acc.1, mergeInto sc acc.2)
      else (acc.1 ++ [lowerStr sc.title], acc.2 ++ [toDict sc]))
    ([], [])).2.filter (fun u => u.queries ≠ [])

/-! ## A template model for reasoning about substitution

A query template is a list of segments: literal text without angle brackets,
or placeholder tokens. renderSegs produces exactly the query strings whose
'<' and '>' characters all delimit well-formed tokens. -/

inductive Seg where
  | cleanSeg (s : List Char)
  | tokSeg (n : List Char)
deriving DecidableEq, Repr

def renderSeg : Seg → List Char
  | .cleanSeg s => s
  | .tokSeg n => '<' :: (n ++ ['>'])

def renderSegs : List Seg → List Char
  | [] => []
  | sg :: rest => renderSeg sg ++ renderSegs rest

/-- A well-formed segment: literal text holds no angle bracket; a token has a
regex-valid name. -/
def goodSeg : Seg → Bool
  | .cleanSeg s => s.all (fun c => c ≠ '<' && c ≠ '>')
  | .tokSeg n => validName n

/-- The token names of a template, in order, duplicates kept. -/
def segTokens : List Seg → List (List Char)
  | [] => []
  | .cleanSeg _ :: rest => segTokens rest
  | .tokSeg n :: rest => n :: segTokens rest

/-- Replacing every token named n by the literal value v. -/
def subSeg (n v : List Char) : Seg → Seg
  | .cleanSeg s => .cleanSeg s
  | .tokSeg m => if m = n then .cleanSeg v else .tokSeg m

def subSegs (n v : List Char) (l : List Seg) : List Seg := l.map (subSeg n v)

/-- The cumulative effect on a template of the substitution loop run over a
token-name list. -/
def applyToks (vals : List (List Char × List Char)) (ts : List (List Char))
    (segs : List Seg) : List Seg :=
  ts.foldl (fun sg t =>
    match alookup vals t with
    | some v => subSegs t v sg
    | none => sg) segs

/-! ## Concrete instances used by the claim theorems -/

/-- A store scenario resembling the spec's Device Details example. -/
def scDeviceDetails : Scenario :=
  { slug := "device-details".data
    title := "Device Details".data
    domain := "device".data
    keywords := ["device".data, "details".data]
    requiredIdentifiers := ["device_id".data]
    aliases := []
    description := "Device lookup".data
    criticalRequirements := []
    steps := [{ stepNumber := 1, title := "Get Device".data, purpose := []
                queryId := "device-details_step1".data
                queryText := "Device | take 1".data
                placeholders := [], optionalStep := false }] }

/-- An exact-slug-match scenario for the query "foo". -/
def scExact : Scenario :=
  { slug := "foo".data, title := "Foo".data, domain := [], keywords := []
    requiredIdentifiers := [], aliases := [], description := []
    criticalRequirements := [], steps := [] }

/-- A scenario that does not slug-match "foo" but accumulates a higher score
(alias exact match, title/alias containment, three keyword matches,
description match, word match). -/
def scStacked : Scenario :=
  { slug := "bar".data, title := "foo tool".data, domain := []
    keywords := ["foo1".data, "foo2".data, "foo3".data]
    requiredIdentifiers := [], aliases := ["foo".data]
    description := "foo helper".data, criticalRequirements := [], steps := [] }

/-- Store holding scExact then scStacked. -/
def stFoo : ScenarioStore := addScenario (addScenario emptyStore scExact) scStacked

/-- The duplicate-title document for the enhanced parser. -/
def docDupTitles : List Char :=
  ("### T\n" ++
   "```kusto\n" ++
   "q1 x\n" ++
   "```\n" ++
   "### T\n" ++
   "```\n" ++
   "q2 y\n" ++
   "```\n").data

/-- Legacy-parser scenario records with the same title (C5 witness data). -/
def isA : InstrScenario :=
  { title := "Dup".data
    descriptionLines := ["first desc".data]
    queries := ["q1".data, "q2".data] }

def isB : InstrScenario :=
  { title := "dup".data
    descriptionLines := ["second desc".data]
    queries := ["q2".data, "q3".data] }

/-- The single GUID of the entity-resolution counterexample. -/
def guidOne : List Char := "11111111-1111-1111-1111-111111111111".data

def guidTwo : List Char := "22222222-2222-2222-2222-222222222222".data

/-- One GUID between the trigger words "device" and "policy". -/
def msgDevicePolicy : List Char :=
  "device 11111111-1111-1111-1111-111111111111 policy".data

/-- Two GUIDs, the first preceded by "device" (C7 witness input). -/
def msgTwoGuids : List Char :=
  ("device 11111111-1111-1111-1111-111111111111 " ++
   "account 22222222-2222-2222-2222-222222222222").data

/-- A one-step execution marked complete (C8 counterexample data). -/
def execOne : ScenarioExecution :=
  markStepComplete (startScenario "s".data [(1, "q".data)]) 1 "r".data

/-! ## General lemmas about the embedded primitives -/

theorem dropWhile_length_le (p : Char → Bool) (l : List Char) :
    (l.dropWhile p).length ≤ l.length := by
  induction l with
  | nil => simp [List.dropWhile]
  | cons c t ih =>
    simp only [List.dropWhile]
    split
    · exact Nat.le_succ_of_le ih
    · simp

theorem parseName_rest_length (l : List Char) (n r : List Char)
    (h : parseName l = some (n, r)) : r.length < l.length := by
  match l with
  | [] => simp [parseName] at h
  | c :: cs =>
    simp only [parseName] at h
    split at h
    · split at h
      · rename_i heq
        have hd : (cs.dropWhile isNameChar).length ≤ cs.length :=
          dropWhile_length_le _ _
        rw [heq] at hd
        simp only [Option.some.injEq, Prod.mk.injEq] at h
        rcases h with ⟨-, rfl⟩
        simp only [List.length_cons] at hd ⊢
        omega
      · exact absurd h (by simp)
    · exact absurd h (by simp)

theorem findTokensF_congr (fuel : Nat) (l : List Char) (h : l.length ≤ fuel) :
    findTokensF fuel l = findTokensF l.length l := by
  induction fuel using Nat.strong_induction_on generalizing l with
  | _ fuel ih =>
    match fuel, l with
    | 0, l =>
      have : l = [] := List.length_eq_zero.mp (Nat.le_zero.mp h)
      subst this
      rfl
    | fuel + 1, [] => rfl
    | fuel + 1, c :: cs =>
      simp only [findTokensF, List.length_cons]
      have hcs : cs.length ≤ fuel := by
        simpa [Nat.succ_le_succ_iff] using h
      split
      · cases hp : parseName cs with
        | some nr =>
          obtain ⟨n, rest⟩ := nr
          have hrest : rest.length < cs.length := parseName_rest_length _ _ _ hp
          dsimp only
          rw [ih fuel (Nat.lt_succ_self _) rest (le_trans (le_of_lt hrest) hcs),
              ih cs.length (Nat.lt_succ_of_le hcs) rest (le_of_lt hrest)]
        | none =>
          dsimp only
          rw [ih fuel (Nat.lt_succ_self _) cs hcs]
      · rw [ih fuel (Nat.lt_succ_self _) cs hcs]

theorem findTokens_nil : findTokens [] = [] := rfl

/-- The defining recursion of findTokens, independent of fuel. -/
theorem findTokens_cons (c : Char) (cs : List Char) :
    findTokens (c :: cs) =
      if c = '<' then
        match parseName cs with
        | some (n, rest) => n :: findTokens rest
        | none => findTokens cs
      else findTokens cs := by
  show findTokensF (c :: cs).length (c :: cs) = _
  simp only [List.length_cons, findTokensF]
  split
  · cases hp : parseName cs with
    | some nr =>
      obtain ⟨n, rest⟩ := nr
      have hrest : rest.length < cs.length := parseName_rest_length _ _ _ hp
      dsimp only
      rw [findTokensF_congr cs.length rest (le_of_lt hrest)]
      rfl
    | none => rfl
  · rfl

theorem pyReplaceF_congr (fuel : Nat) (l : List Char) (o : Char) (os new : List Char)
    (h : l.length ≤ fuel) :
    pyReplaceF fuel l o os new = pyReplaceF l.length l o os new := by
  induction fuel using Nat.strong_induction_on generalizing l with
  | _ fuel ih =>
    match fuel, l with
    | 0, l =>
      have : l = [] := List.length_eq_zero.mp (Nat.le_zero.mp h)
      subst this
      rfl
    | fuel + 1, [] => rfl
    | fuel + 1, c :: cs =>
      simp only [pyReplaceF, List.length_cons]
      have hcs : cs.length ≤ fuel := by
        simpa [Nat.succ_le_succ_iff] using h
      split
      · have hd : ((c :: cs).drop (os.length + 1)).length ≤ cs.length := by
          simp only [List.length_drop, List.length_cons]
          omega
        rw [ih fuel (Nat.lt_succ_self _) _ (le_trans hd hcs),
            ih cs.length (Nat.lt_succ_of_le hcs) _ hd]
      · rw [ih fuel (Nat.lt_succ_self _) cs hcs]

theorem pyReplace_nil (o : Char) (os new : List Char) :
    pyReplace [] o os new = [] := rfl

/-- The defining recursion of pyReplace, independent of fuel. -/
theorem pyReplace_cons (c : Char) (cs : List Char) (o : Char) (os new : List Char) :
    pyReplace (c :: cs) o os new =
      if (o :: os).isPrefixOf (c :: cs) then
        new ++ pyReplace ((c :: cs).drop (os.length + 1)) o os new
      else
        c :: pyReplace cs o os new := by
  show pyReplaceF (c :: cs).length (c :: cs) o os new = _
  simp only [List.length_cons, pyReplaceF]
  split
  · rw [pyReplaceF_congr cs.length ((c :: cs).drop (os.length + 1)) o os new
        (by simp only [List.length_drop, List.length_cons]; omega)]
    rfl
  · rfl

theorem mem_insertDesc {α : Type} (key : α → Int) (x : α) (l : List α) (a : α) :
    a ∈ insertDesc key x l ↔ a = x ∨ a ∈ l := by
  induction l with
  | nil => simp [insertDesc]
  | cons y ys ih =>
    simp only [insertDesc]
    split
    · simp only [List.mem_cons, ih]
      tauto
    · exact List.mem_cons

theorem sorted_insertDesc {α : Type} (key : α → Int) (x : α) (l : List α)
    (h : l.Pairwise (fun a b => key b ≤ key a)) :
    (insertDesc key x l).Pairwise (fun a b => key b ≤ key a) := by
  induction l with
  | nil => simp [insertDesc]
  | cons y ys ih =>
    simp only [insertDesc]
    rcases List.pairwise_cons.mp h with ⟨hy, hys⟩
    split
    · refine List.pairwise_cons.mpr ⟨?_, ih hys⟩
      intro a ha
      rcases (mem_insertDesc key x ys a).mp ha with rfl | ha'
      · assumption
      · exact hy a ha'
    · rename_i hlt
      refine List.pairwise_cons.mpr ⟨?_, h⟩
      intro a ha
      rcases List.mem_cons.mp ha with rfl | ha'
      · exact le_of_not_le hlt
      · exact le_trans (hy a ha') (le_of_not_le hlt)

theorem sortDesc_go_sorted {α : Type} (key : α → Int) (l : List α) (acc : List α)
    (h : acc.Pairwise (fun a b => key b ≤ key a)) :
    (l.foldl (fun acc x => insertDesc key x acc) acc).Pairwise
      (fun a b => key b ≤ key a) := by
  induction l generalizing acc with
  | nil => simpa using h
  | cons x xs ih => exact ih _ (sorted_insertDesc key x acc h)

/-- The stable descending sort yields a list weakly decreasing in the key. -/
theorem sortDesc_sorted {α : Type} (key : α → Int) (l : List α) :
    (sortDesc key l).Pairwise (fun a b => key b ≤ key a) :=
  sortDesc_go_sorted key l [] (by simp)

theorem sortDesc_go_mem {α : Type} (key : α → Int) (l : List α) (acc : List α) (a : α) :
    a ∈ l.foldl (fun acc x => insertDesc key x acc) acc ↔ a ∈ acc ∨ a ∈ l := by
  induction l generalizing acc with
  | nil => simp
  | cons x xs ih =>
    simp only [List.foldl_cons, ih, mem_insertDesc, List.mem_cons]
    tauto

/-- Sorting preserves membership. -/
theorem mem_sortDesc {α : Type} (key : α → Int) (l : List α) (a : α) :
    a ∈ sortDesc key l ↔ a ∈ l := by
  simp [sortDesc, sortDesc_go_mem]

/-! ## Claim theorems: direct evaluations -/

/-- C10: substitution is sequential whole-text replacement over the
accumulating query string — a supplied value containing another supplied
placeholder's token has that embedded token replaced in the final query, so
values are not inserted opaquely. Here the value of A contains the token of
the supplied placeholder B, and the output contains B's value inside A's
substituted text. -/
theorem c10_sequential_replacement :
    (substitutePlaceholders "<A> <B>".data
      [("A".data, "x<B>x".data), ("B".data, "v".data)]).queryText = "xvx v".data ∧
    findTokens "x<B>x".data = ["B".data] ∧
    (substitutePlaceholders "<A> <B>".data
      [("A".data, "x<B>x".data), ("B".data, "v".data)]).queryText ≠
      "x<B>x v".data := by decide

/-- C2 (code bug exhibit): is_valid_guid accepts a canonical GUID followed by
a trailing newline, because Python's `$` anchor also matches just before a
final newline; validate_placeholder_values therefore reports such a value as
valid although it is not of the 8-4-4-4-12 shape. -/
theorem c2_guid_trailing_newline :
    isValidGuid "aaaaaaaa-aaaa-aaaa-aaaa-aaaaaaaaaaaa\n".data = true ∧
    ("aaaaaaaa-aaaa-aaaa-aaaa-aaaaaaaaaaaa\n".data).length = 37 ∧
    validatePlaceholderValues
      [("DeviceId".data, ⟨PlaceholderType.guid, true⟩)]
      [("DeviceId".data, "aaaaaaaa-aaaa-aaaa-aaaa-aaaaaaaaaaaa\n".data)] =
      ⟨true, []⟩ := by decide

/-- C3 (code bug exhibit): search with the empty query and no domain returns
every stored scenario, not the empty list — the empty string is a substring
of every slug/title/description, so each scenario scores positive (here 120:
50 slug containment + 40 title containment + 10 description containment +
20 for the keyword "device" containing ""). Twenty points per keyword accrue
because "" is contained in each keyword. -/
theorem c3_empty_query_returns_all :
    searchStore (addScenario emptyStore scDeviceDetails) [] none =
      [makeSummary scDeviceDetails] ∧
    searchStore (addScenario emptyStore scDeviceDetails) [] none ≠ [] := by decide

/-- C6 (code bug exhibit): resolve_entities assigns the one GUID of the
message to both requested slots (device_id via window score 1 + adjacency
boost 2; policy_id via window score 1 against the runner-up sentinel -1), so
the resolved mapping is not injective. -/
theorem c6_two_slots_same_guid :
    (resolveEntities msgDevicePolicy
        ["device_id".data, "policy_id".data]).resolved =
      [("device_id".data, guidOne), ("policy_id".data, guidOne)] ∧
    "device_id".data ≠ "policy_id".data := by decide

/-- C8 (counterexample): after step 1 is completed (status no longer
pending), mark_step_failed still rewrites the step's status and error — the
call is not a no-op on a non-pending step, and the step leaves pending-space
a second time. -/
theorem c8_counterexample :
    lookupStep execOne.steps 1 =
      some ⟨1, "q".data, "completed".data, some "r".data, none⟩ ∧
    markStepFailed execOne 1 "boom".data ≠ execOne ∧
    lookupStep (markStepFailed execOne 1 "boom".data).steps 1 =
      some ⟨1, "q".data, "failed".data, some "r".data, some "boom".data⟩ := by decide

/-- C9 (counterexample): marking only the last step makes is_complete true
(current_step = max marked = total), yet step 1 is still pending and
get_next_pending_step returns it instead of nothing. -/
theorem c9_counterexample :
    isComplete
      (markStepComplete (startScenario "s".data [(1, "a".data), (2, "b".data)])
        2 "r".data) = true ∧
    getNextPendingStep
      (markStepComplete (startScenario "s".data [(1, "a".data), (2, "b".data)])
        2 "r".data) =
      some ⟨1, "a".data, "pending".data, none, none⟩ := by decide

/-- C5 (counterexample): the enhanced parser keeps two same-titled scenarios
separate (no merge), and loading them into the store makes the second replace
the first under their shared slug — queries are not unioned and descriptions
are not concatenated. -/
theorem c5_counterexample :
    (parseContent docDupTitles).map
        (fun sc => (sc.title, sc.steps.map (fun st => st.queryText))) =
      [("T".data, ["q1 x".data]), ("T".data, ["q2 y".data])] ∧
    ((parseContent docDupTitles).foldl addScenario emptyStore).scenarios.map
        (fun sc => (sc.slug, sc.steps.map (fun st => st.queryText))) =
      [("t".data, ["q2 y".data])] := by decide

/-- C4 (counterexample): for the query "foo", scExact is an exact slug match
(score 195) but scStacked, which does not slug-match, accumulates 245 points
(95 exact alias + 40 title containment + 35 alias containment + 60 keywords +
10 description + 5 word match) and is ranked first. -/
theorem c4_counterexample :
    queryLowerOf "foo".data = scExact.slug ∧
    ¬(queryLowerOf "foo".data = scStacked.slug ∨
      normalizedQueryOf "foo".data = scStacked.slug) ∧
    searchRanked stFoo "foo".data none =
      [(scStacked.slug, 245), (scExact.slug, 195)] ∧
    (searchStore stFoo "foo".data none).map (fun s => s.slug) =
      [scStacked.slug, scExact.slug] := by decide

/-- C7 (counterexample): with two needed slots but no GUID-shaped token in
the message, resolve_entities returns early: neither slot is assigned and —
contrary to the claim — neither slot is recorded as ambiguous. -/
theorem c7_counterexample :
    extractGuidCandidates "hello there".data = [] ∧
    resolveEntities "hello there".data
        ["device_id".data, "account_id".data] =
      { resolved := [], candidates := [], heuristic := true, ambiguities := [] } := by decide

/-- C1 (counterexample): with query text "<A>" and the supplied value of A
being the token "<A>" itself, every name occurring in the query is supplied
and the warning list is empty, yet the returned query text still contains the
token <A> of the supplied name A. -/
theorem c1_counterexample :
    (∀ n ∈ findTokens "<A>".data, (alookup [("A".data, "<A>".data)] n).isSome) ∧
    (substitutePlaceholders "<A>".data [("A".data, "<A>".data)]).warnings = [] ∧
    (substitutePlaceholders "<A>".data [("A".data, "<A>".data)]).queryText =
      "<A>".data ∧
    "A".data ∈ findTokens
      (substitutePlaceholders "<A>".data [("A".data, "<A>".data)]).queryText := by decide

/-! ## C8: amended no-op/overwrite behaviour of the Mark* calls -/

theorem lookupStep_stepNumber (l : List ExecStep) (n : Nat) (s : ExecStep)
    (h : lookupStep l n = some s) : s.stepNumber = n := by
  induction l with
  | nil => simp [lookupStep] at h
  | cons t rest ih =>
    simp only [lookupStep] at h
    split at h
    · cases h
      assumption
    · exact ih h

theorem lookupStep_stepsPut (l : List ExecStep) (n : Nat) (s t : ExecStep)
    (h : lookupStep l n = some s) (ht : t.stepNumber = n) :
    lookupStep (stepsPut l t) n = some t := by
  induction l with
  | nil => simp [lookupStep] at h
  | cons u rest ih =>
    simp only [lookupStep] at h
    by_cases hu : u.stepNumber = n
    · have : u.stepNumber = t.stepNumber := by rw [hu, ht]
      simp [stepsPut, this, lookupStep, ht]
    · rw [if_neg hu] at h
      have hne : u.stepNumber ≠ t.stepNumber := by rw [ht]; exact hu
      simp only [stepsPut, if_neg hne, lookupStep, if_neg hu]
      exact ih h

/-- C8 (amended): a Mark* call with a step number absent from the steps map
leaves the execution unchanged; on a present step it unconditionally
overwrites the step's status and payload — whatever the previous status —
and sets current_step to max(current_step, step_number). -/
theorem c8_amended (e : ScenarioExecution) (n : Nat) (r err reason : List Char) :
    (lookupStep e.steps n = none →
      markStepComplete e n r = e ∧ markStepFailed e n err = e ∧
        markStepSkipped e n reason = e) ∧
    (∀ s, lookupStep e.steps n = some s →
      lookupStep (markStepComplete e n r).steps n =
        some { s with status := "completed".data, result := some r } ∧
      (markStepComplete e n r).currentStep = max e.currentStep n ∧
      lookupStep (markStepFailed e n err).steps n =
        some { s with status := "failed".data, error := some err } ∧
      (markStepFailed e n err).currentStep = max e.currentStep n ∧
      lookupStep (markStepSkipped e n reason).steps n =
        some { s with status := "skipped".data, error := some reason } ∧
      (markStepSkipped e n reason).currentStep = max e.currentStep n) := by
  constructor
  · intro h
    refine ⟨?_, ?_, ?_⟩ <;> simp [markStepComplete, markStepFailed, markStepSkipped, h]
  · intro s h
    have hn : s.stepNumber = n := lookupStep_stepNumber e.steps n s h
    refine ⟨?_, ?_, ?_, ?_, ?_, ?_⟩
    · simp only [markStepComplete, h]
      exact lookupStep_stepsPut e.steps n s _ h hn
    · simp [markStepComplete, h]
    · simp only [markStepFailed, h]
      exact lookupStep_stepsPut e.steps n s _ h hn
    · simp [markStepFailed, h]
    · simp only [markStepSkipped, h]
      exact lookupStep_stepsPut e.steps n s _ h hn
    · simp [markStepSkipped, h]

/-- C8 witness: the no-op on an absent step number and the overwrite on a
present one, at concrete executions. -/
theorem c8_witness :
    markStepComplete (startScenario "w8".data []) 3 "r".data =
      startScenario "w8".data [] ∧
    lookupStep
        (markStepComplete (startScenario "w8".data [(1, "q".data)]) 1 "r".data).steps
        1 =
      some ⟨1, "q".data, "completed".data, some "r".data, none⟩ :=
  ⟨((c8_amended (startScenario "w8".data []) 3 "r".data "e".data "s".data).1
      (by decide)).1,
   (((c8_amended (startScenario "w8".data [(1, "q".data)]) 1 "r".data "e".data
        "s".data).2 ⟨1, "q".data, "pending".data, none, none⟩ (by decide)).1)⟩

/-! ## C9: amended next-pending behaviour -/

theorem stepsPut_of_not_mem (l : List ExecStep) (s : ExecStep)
    (h : s.stepNumber ∉ l.map ExecStep.stepNumber) : stepsPut l s = l ++ [s] := by
  induction l with
  | nil => rfl
  | cons t rest ih =>
    simp only [List.map_cons, List.mem_cons] at h
    push_neg at h
    have hne : t.stepNumber ≠ s.stepNumber := fun he => h.1 he.symm
    simp only [stepsPut, if_neg hne]
    rw [ih h.2]
    rfl

theorem initSteps_numbers (defs : List (Nat × List Char)) (acc : List ExecStep)
    (h : (acc.map ExecStep.stepNumber ++ defs.map Prod.fst).Nodup) :
    ((defs.foldl
        (fun a d => stepsPut a ⟨d.1, d.2, "pending".data, none, none⟩) acc).map
      ExecStep.stepNumber) = acc.map ExecStep.stepNumber ++ defs.map Prod.fst := by
  induction defs generalizing acc with
  | nil => simp
  | cons d ds ih =>
    have hmem : (ExecStep.mk d.1 d.2 "pending".data none none).stepNumber ∉
        acc.map ExecStep.stepNumber := by
      intro hm
      exact (List.disjoint_of_nodup_append h) hm (by simp)
    have hput :=
      stepsPut_of_not_mem acc (ExecStep.mk d.1 d.2 "pending".data none none) hmem
    have hstep : ((acc ++ [ExecStep.mk d.1 d.2 "pending".data none none]).map
        ExecStep.stepNumber) = acc.map ExecStep.stepNumber ++ [d.1] := by
      rw [List.map_append]
      rfl
    have hnodup : (((acc ++ [ExecStep.mk d.1 d.2 "pending".data none none]).map
        ExecStep.stepNumber) ++ ds.map Prod.fst).Nodup := by
      rw [hstep, List.append_assoc]
      exact h
    simp only [List.foldl_cons, hput]
    rw [ih (acc ++ [ExecStep.mk d.1 d.2 "pending".data none none]) hnodup, hstep,
      List.append_assoc]
    rfl

theorem startScenario_numbers (slug : List Char) (defs : List (Nat × List Char))
    (h : (defs.map Prod.fst).Nodup) :
    (startScenario slug defs).steps.map ExecStep.stepNumber = defs.map Prod.fst := by
  simpa [startScenario] using initSteps_numbers defs [] (by simpa using h)

theorem stepsPut_map_numbers (l : List ExecStep) (n : Nat) (s t : ExecStep)
    (h : lookupStep l n = some s) (ht : t.stepNumber = n) :
    (stepsPut l t).map ExecStep.stepNumber = l.map ExecStep.stepNumber := by
  induction l with
  | nil => simp [lookupStep] at h
  | cons u rest ih =>
    simp only [lookupStep] at h
    by_cases hu : u.stepNumber = n
    · have : u.stepNumber = t.stepNumber := by rw [hu, ht]
      simp [stepsPut, this, ht, hu]
    · rw [if_neg hu] at h
      have hne : u.stepNumber ≠ t.stepNumber := by rw [ht]; exact hu
      simp only [stepsPut, if_neg hne, List.map_cons]
      rw [ih h]

theorem applyMark_numbers (e : ScenarioExecution) (op : MarkOp) :
    (applyMark e op).steps.map ExecStep.stepNumber =
      e.steps.map ExecStep.stepNumber := by
  cases op with
  | complete n r =>
    simp only [applyMark, markStepComplete]
    cases h : lookupStep e.steps n with
    | none => rfl
    | some s =>
      exact stepsPut_map_numbers e.steps n s _ h (lookupStep_stepNumber e.steps n s h)
  | failed n r =>
    simp only [applyMark, markStepFailed]
    cases h : lookupStep e.steps n with
    | none => rfl
    | some s =>
      exact stepsPut_map_numbers e.steps n s _ h (lookupStep_stepNumber e.steps n s h)
  | skipped n r =>
    simp only [applyMark, markStepSkipped]
    cases h : lookupStep e.steps n with
    | none => rfl
    | some s =>
      exact stepsPut_map_numbers e.steps n s _ h (lookupStep_stepNumber e.steps n s h)

theorem applyMarks_numbers (e : ScenarioExecution) (ops : List MarkOp) :
    (applyMarks e ops).steps.map ExecStep.stepNumber =
      e.steps.map ExecStep.stepNumber := by
  induction ops generalizing e with
  | nil => rfl
  | cons op rest ih =>
    show (applyMarks (applyMark e op) rest).steps.map ExecStep.stepNumber = _
    rw [ih (applyMark e op), applyMark_numbers]

theorem findPending_spec (l : List ExecStep)
    (hl : (l.map ExecStep.stepNumber).Pairwise (· < ·)) :
    (l.find? (fun s => s.status == "pending".data) = none →
      ∀ s ∈ l, s.status ≠ "pending".data) ∧
    (∀ s, l.find? (fun s => s.status == "pending".data) = some s →
      s.status = "pending".data ∧
      ∀ s' ∈ l, s'.status = "pending".data → s.stepNumber ≤ s'.stepNumber) := by
  induction l with
  | nil => simp
  | cons t rest ih =>
    simp only [List.map_cons, List.pairwise_cons] at hl
    obtain ⟨hlt, hrest⟩ := hl
    by_cases hp : t.status = "pending".data
    · constructor
      · intro h
        simp [List.find?, hp] at h
      · intro s hs
        simp only [List.find?, hp] at hs
        rw [beq_self_eq_true] at hs
        simp only [Option.some.injEq] at hs
        subst hs
        refine ⟨hp, ?_⟩
        intro s' hs' _
        rcases List.mem_cons.mp hs' with rfl | hmem
        · exact le_refl _
        · exact le_of_lt (hlt s'.stepNumber (List.mem_map_of_mem _ hmem))
    · have hfind : (t :: rest).find? (fun s => s.status == "pending".data) =
          rest.find? (fun s => s.status == "pending".data) := by
        simp [List.find?, beq_eq_false_iff_ne.mpr hp]
      constructor
      · intro h s hs
        rcases List.mem_cons.mp hs with rfl | hmem
        · exact hp
        · exact (ih hrest).1 (hfind ▸ h) s hmem
      · intro s hs
        rw [hfind] at hs
        obtain ⟨hst, hmin⟩ := (ih hrest).2 s hs
        refine ⟨hst, ?_⟩
        intro s' hs' hps'
        rcases List.mem_cons.mp hs' with rfl | hmem
        · exact absurd hps' hp
        · exact hmin s' hmem hps'

/-- C9 (amended): after any sequence of Mark* calls on a scenario whose step
definitions carry strictly increasing step numbers, get_next_pending_step
returns a pending step of minimal step number when one exists and nothing
exactly when no step is pending — independently of is_complete, which only
compares current_step (the highest marked number) with total_steps. -/
theorem c9_amended (slug : List Char) (defs : List (Nat × List Char))
    (ops : List MarkOp) (hinc : (defs.map Prod.fst).Pairwise (· < ·)) :
    (getNextPendingStep (applyMarks (startScenario slug defs) ops) = none →
      ∀ s ∈ (applyMarks (startScenario slug defs) ops).steps,
        s.status ≠ "pending".data) ∧
    (∀ s, getNextPendingStep (applyMarks (startScenario slug defs) ops) = some s →
      s.status = "pending".data ∧
      ∀ s' ∈ (applyMarks (startScenario slug defs) ops).steps,
        s'.status = "pending".data → s.stepNumber ≤ s'.stepNumber) := by
  have hnodup : (defs.map Prod.fst).Nodup :=
    hinc.imp (fun h => Nat.ne_of_lt h)
  have hnum : ((applyMarks (startScenario slug defs) ops).steps.map
      ExecStep.stepNumber) = defs.map Prod.fst := by
    rw [applyMarks_numbers, startScenario_numbers slug defs hnodup]
  exact findPending_spec _ (hnum ▸ hinc)

/-- C9 witness: with steps 1 and 2 and only step 2 marked complete, the
returned next-pending step (step 1) is pending and of minimal number among
the pending steps. -/
theorem c9_witness :
    (⟨1, "a".data, "pending".data, none, none⟩ : ExecStep).status = "pending".data ∧
    ∀ s' ∈ (applyMarks (startScenario "w9".data [(1, "a".data), (2, "b".data)])
        [MarkOp.complete 2 "r".data]).steps,
      s'.status = "pending".data →
        (⟨1, "a".data, "pending".data, none, none⟩ : ExecStep).stepNumber ≤
          s'.stepNumber :=
  (c9_amended "w9".data [(1, "a".data), (2, "b".data)]
      [MarkOp.complete 2 "r".data] (by decide)).2
    ⟨1, "a".data, "pending".data, none, none⟩ (by decide)

/-! ## C5: amended merge behaviour (legacy dedup stage) -/

theorem mem_extendNoDup (qs : List (List Char)) (base : List (List Char))
    (q : List Char) : q ∈ extendNoDup base qs ↔ q ∈ base ∨ q ∈ qs := by
  induction qs generalizing base with
  | nil => simp [extendNoDup]
  | cons a as ih =>
    show q ∈ extendNoDup (if a ∈ base then base else base ++ [a]) as ↔ _
    rw [ih]
    by_cases ha : a ∈ base
    · simp only [if_pos ha, List.mem_cons]
      constructor
      · rintro (hb | hs)
        · exact Or.inl hb
        · exact Or.inr (Or.inr hs)
      · rintro (hb | rfl | hs)
        · exact Or.inl hb
        · exact Or.inl ha
        · exact Or.inr hs
    · simp only [if_neg ha, List.mem_append, List.mem_singleton, List.mem_cons]
      tauto

theorem nodup_extendNoDup (qs : List (List Char)) (base : List (List Char))
    (h : base.Nodup) : (extendNoDup base qs).Nodup := by
  induction qs generalizing base with
  | nil => exact h
  | cons a as ih =>
    show (extendNoDup (if a ∈ base then base else base ++ [a]) as).Nodup
    by_cases ha : a ∈ base
    · rw [if_pos ha]
      exact ih base h
    · rw [if_neg ha]
      refine ih _ ?_
      rw [List.nodup_append]
      exact ⟨h, List.nodup_singleton a, by simpa using ha⟩

/-- C5 (amended): the enhanced parser (parse_content) does not merge
duplicate titles (see the counterexample); the merge described by the spec is
performed only by the legacy parse_instructions dedup stage, where a later
scenario with the same lower-cased title is merged into the first: the merged
queries are exactly the union of both query lists with exact duplicates
skipped, and the descriptions are concatenated (newline-joined, stripped). -/
theorem c5_amended (s1 s2 : InstrScenario)
    (ht : lowerStr s1.title = lowerStr s2.title)
    (hq : s1.queries ≠ []) :
    ∃ m, dedupScenarios [s1, s2] = [m] ∧ m.title = s1.title ∧
      (∀ q, q ∈ m.queries ↔ q ∈ s1.queries ∨ q ∈ s2.queries) ∧
      (s1.queries.Nodup → m.queries.Nodup) ∧
      (s2.descriptionLines ≠ [] →
        m.description =
          pyStrip ((toDict s1).description ++ '\n' ::
            joinWith ['\n'] s2.descriptionLines)) ∧
      (s2.descriptionLines = [] → m.description = (toDict s1).description) := by
  have htd : lowerStr (toDict s1).title = lowerStr s2.title := by
    simpa [toDict] using ht
  have hfold : dedupScenarios [s1, s2] =
      (mergeInto s2 [toDict s1]).filter (fun u => u.queries ≠ []) := by
    simp [dedupScenarios, ht]
  have hmerge : mergeInto s2 [toDict s1] =
      [{ title := s1.title
         description :=
           if s2.descriptionLines ≠ [] then
             pyStrip ((toDict s1).description ++ '\n' ::
               joinWith ['\n'] s2.descriptionLines)
           else (toDict s1).description
         queries :=
           if s2.queries ≠ [] then extendNoDup s1.queries s2.queries
           else s1.queries }] := by
    simp only [mergeInto, if_pos htd]
    rfl
  set m : ScenarioDict :=
    { title := s1.title
      description :=
        if s2.descriptionLines ≠ [] then
          pyStrip ((toDict s1).description ++ '\n' ::
            joinWith ['\n'] s2.descriptionLines)
        else (toDict s1).description
      queries :=
        if s2.queries ≠ [] then extendNoDup s1.queries s2.queries
        else s1.queries } with hm
  have hqm : ∀ q, q ∈ m.queries ↔ q ∈ s1.queries ∨ q ∈ s2.queries := by
    intro q
    rw [hm]
    by_cases hs2 : s2.queries = []
    · simp [hs2]
    · simp only [if_pos hs2]
      exact mem_extendNoDup s2.queries s1.queries q
  have hne : m.queries ≠ [] := by
    obtain ⟨q0, hq0⟩ := List.exists_mem_of_ne_nil s1.queries hq
    exact List.ne_nil_of_mem ((hqm q0).mpr (Or.inl hq0))
  refine ⟨m, ?_, rfl, hqm, ?_, ?_, ?_⟩
  · rw [hfold, hmerge]
    simp only [List.filter_cons, List.filter_nil]
    by_cases hs2 : s2.queries = []
    · simp [hs2, hq]
    · have hnil : extendNoDup s1.queries s2.queries ≠ [] := by
        obtain ⟨q0, hq0⟩ := List.exists_mem_of_ne_nil s1.queries hq
        exact List.ne_nil_of_mem ((mem_extendNoDup s2.queries s1.queries q0).mpr
          (Or.inl hq0))
      simp [hs2, hnil]
  · intro h1
    rw [hm]
    by_cases hs2 : s2.queries = []
    · simpa [hs2] using h1
    · simp only [if_pos hs2]
      exact nodup_extendNoDup s2.queries s1.queries h1
  · intro hd
    rw [hm]
    simp [hd]
  · intro hd
    rw [hm]
    simp [hd]

/-- C5 witness: the amended merge statement at two concrete same-titled
scenario records sharing the query "q2". -/
theorem c5_witness :
    ∃ m, dedupScenarios [isA, isB] = [m] ∧ m.title = isA.title ∧
      (∀ q, q ∈ m.queries ↔ q ∈ isA.queries ∨ q ∈ isB.queries) ∧
      (isA.queries.Nodup → m.queries.Nodup) ∧
      (isB.descriptionLines ≠ [] →
        m.description =
          pyStrip ((toDict isA).description ++ '\n' ::
            joinWith ['\n'] isB.descriptionLines)) ∧
      (isB.descriptionLines = [] → m.description = (toDict isA).description) :=
  c5_amended isA isB (by decide) (by decide)

/-! ## C4: amended ranking guarantee for exact slug matches -/

/-- C4 (amended): an exact slug match (query equal to the slug after
lower-casing/stripping, directly or with word separators normalized to '-')
contributes 100 points, so the scenario always appears in the ranked scores,
and the ranking is weakly decreasing in total score — hence the exact match
precedes every scenario of strictly smaller total score. It does not precede
every non-exact match: a non-exact scenario can accumulate a larger total
from alias/title/keyword/description contributions (see the
counterexample). -/
theorem c4_amended (st : ScenarioStore) (query : List Char) (e : Scenario)
    (he : e ∈ st.scenarios)
    (hx : queryLowerOf query = e.slug ∨ normalizedQueryOf query = e.slug) :
    100 ≤ scoreScenario (queryLowerOf query) (normalizedQueryOf query)
        (findWords (queryLowerOf query)) e ∧
    (e.slug, scoreScenario (queryLowerOf query) (normalizedQueryOf query)
        (findWords (queryLowerOf query)) e) ∈ searchRanked st query none ∧
    (searchRanked st query none).Pairwise (fun a b => b.2 ≤ a.2) := by
  have h100 : 100 ≤ scoreScenario (queryLowerOf query) (normalizedQueryOf query)
      (findWords (queryLowerOf query)) e := by
    unfold scoreScenario
    rw [if_pos hx]
    have h2 : (0:Int) ≤ (if e.aliases.any (fun a =>
        queryLowerOf query = pyStrip (lowerStr a) ∨
        normalizedQueryOf query =
          replaceChar ' ' '-' (replaceChar '_' '-' (pyStrip (lowerStr a))))
      then 95 else 0) := by split <;> norm_num
    have h3 : (0:Int) ≤ (if isSubstr (normalizedQueryOf query) e.slug
        then 50 else 0) := by split <;> norm_num
    have h4 : (0:Int) ≤ (if isSubstr (queryLowerOf query) (lowerStr e.title)
        then 40 else 0) := by split <;> norm_num
    have h5 : (0:Int) ≤ (if e.aliases.any (fun a =>
        isSubstr (queryLowerOf query) (lowerStr a)) then 35 else 0) := by
      split <;> norm_num
    have h6 : (0:Int) ≤ 20 * ((e.keywords.countP (fun kw =>
        isSubstr (lowerStr kw) (queryLowerOf query) ||
        isSubstr (queryLowerOf query) (lowerStr kw)) : Nat) : Int) :=
      mul_nonneg (by norm_num) (Int.natCast_nonneg _)
    have h7 : (0:Int) ≤ (if isSubstr (queryLowerOf query) (lowerStr e.description)
        then 10 else 0) := by split <;> norm_num
    have h8 : (0:Int) ≤ 5 * (((findWords (queryLowerOf query)).countP (fun w =>
        isSubstr w (lowerStr (e.title ++ ' ' :: e.description ++ ' ' ::
          joinWith [' '] e.keywords))) : Nat) : Int) :=
      mul_nonneg (by norm_num) (Int.natCast_nonneg _)
    linarith
  refine ⟨h100, ?_, ?_⟩
  · apply (mem_sortDesc Prod.snd _ _).mpr
    apply List.mem_filterMap.mpr
    refine ⟨e, he, ?_⟩
    have hpos : 0 < scoreScenario (queryLowerOf query) (normalizedQueryOf query)
        (findWords (queryLowerOf query)) e :=
      lt_of_lt_of_le (by norm_num) h100
    simp only [domainPass, if_pos hpos, if_true]
  · exact sortDesc_sorted Prod.snd _

/-- C4 witness: the amended guarantee at the concrete two-scenario store for
the query "foo" (scExact is the exact slug match, scoring 195 ≥ 100). -/
theorem c4_witness :
    100 ≤ scoreScenario (queryLowerOf "foo".data) (normalizedQueryOf "foo".data)
        (findWords (queryLowerOf "foo".data)) scExact ∧
    (scExact.slug, scoreScenario (queryLowerOf "foo".data)
        (normalizedQueryOf "foo".data) (findWords (queryLowerOf "foo".data))
        scExact) ∈ searchRanked stFoo "foo".data none ∧
    (searchRanked stFoo "foo".data none).Pairwise (fun a b => b.2 ≤ a.2) :=
  c4_amended stFoo "foo".data scExact (by decide) (Or.inl (by decide))

/-! ## C7: amended margin rule -/

theorem alookup_dictInsert_self {β : Type} (d : List (List Char × β))
    (k : List Char) (v : β) : alookup (dictInsert d k v) k = some v := by
  induction d with
  | nil => simp [dictInsert, alookup]
  | cons p t ih =>
    obtain ⟨k', v'⟩ := p
    by_cases hk : k' = k
    · simp [dictInsert, hk, alookup]
    · simp [dictInsert, hk, alookup, ih]

theorem alookup_dictInsert_ne {β : Type} (d : List (List Char × β))
    (k k' : List Char) (v : β) (h : k' ≠ k) :
    alookup (dictInsert d k v) k' = alookup d k' := by
  have h' : k ≠ k' := fun he => h (Eq.symm he)
  induction d with
  | nil => simp [dictInsert, alookup, h']
  | cons p t ih =>
    obtain ⟨k0, v0⟩ := p
    by_cases hk : k0 = k
    · subst hk
      simp [dictInsert, alookup, h']
    · simp only [dictInsert, if_neg hk, alookup]
      split
      · rfl
      · exact ih

theorem resolveSlotStep_lookup_ne (ml : List Char) (cands : List GuidCandidate)
    (acc : List (List Char × List Char) × List (List Char × List (List Char × Int)))
    (s slot : List Char) (hne : s ≠ slot) :
    alookup (resolveSlotStep ml cands acc s).1 slot = alookup acc.1 slot := by
  unfold resolveSlotStep
  cases h : slotSorted ml cands s with
  | nil => rfl
  | cons p r =>
    obtain ⟨g, sc⟩ := p
    dsimp only
    split
    · exact alookup_dictInsert_ne acc.1 s slot g (fun he => hne he.symm)
    · rfl

theorem resolveSlotStep_amb_mono (ml : List Char) (cands : List GuidCandidate)
    (acc : List (List Char × List Char) × List (List Char × List (List Char × Int)))
    (s : List Char) (x : List Char × List (List Char × Int)) (hx : x ∈ acc.2) :
    x ∈ (resolveSlotStep ml cands acc s).2 := by
  unfold resolveSlotStep
  cases h : slotSorted ml cands s with
  | nil => exact hx
  | cons p r =>
    obtain ⟨g, sc⟩ := p
    dsimp only
    split
    · exact hx
    · simp only [List.mem_append]
      exact Or.inl hx

theorem resolveFold_amb_mono (ml : List Char) (cands : List GuidCandidate)
    (slots : List (List Char))
    (acc : List (List Char × List Char) × List (List Char × List (List Char × Int)))
    (x : List Char × List (List Char × Int)) (hx : x ∈ acc.2) :
    x ∈ (slots.foldl (resolveSlotStep ml cands) acc).2 := by
  induction slots generalizing acc with
  | nil => exact hx
  | cons s ss ih => exact ih _ (resolveSlotStep_amb_mono ml cands acc s x hx)

theorem resolveFold_lookup_assigned (ml : List Char) (cands : List GuidCandidate)
    (slot tg : List Char) (ts : Int) (rest : List (List Char × Int))
    (hsort : slotSorted ml cands slot = (tg, ts) :: rest)
    (hcond : 0 < ts ∧ 2 ≤ ts - runnerUp rest) :
    ∀ (slots : List (List Char))
      (acc : List (List Char × List Char) ×
        List (List Char × List (List Char × Int))),
      (slot ∈ slots ∨ alookup acc.1 slot = some tg) →
      alookup (slots.foldl (resolveSlotStep ml cands) acc).1 slot = some tg := by
  intro slots
  induction slots with
  | nil =>
    intro acc hacc
    rcases hacc with h | h
    · simp at h
    · exact h
  | cons s ss ih =>
    intro acc hacc
    show alookup (ss.foldl (resolveSlotStep ml cands)
      (resolveSlotStep ml cands acc s)).1 slot = some tg
    by_cases hs : s = slot
    · subst hs
      apply ih
      right
      unfold resolveSlotStep
      rw [hsort]
      dsimp only
      rw [if_pos hcond]
      exact alookup_dictInsert_self acc.1 s tg
    · apply ih
      rcases hacc with hmem | hlk
      · rcases List.mem_cons.mp hmem with rfl | hmem'
        · exact absurd rfl hs
        · exact Or.inl hmem'
      · right
        rw [resolveSlotStep_lookup_ne ml cands acc s slot hs]
        exact hlk

theorem resolveFold_lookup_unassigned (ml : List Char) (cands : List GuidCandidate)
    (slot tg : List Char) (ts : Int) (rest : List (List Char × Int))
    (hsort : slotSorted ml cands slot = (tg, ts) :: rest)
    (hcond : ¬(0 < ts ∧ 2 ≤ ts - runnerUp rest)) :
    ∀ (slots : List (List Char))
      (acc : List (List Char × List Char) ×
        List (List Char × List (List Char × Int))),
      alookup (slots.foldl (resolveSlotStep ml cands) acc).1 slot =
        alookup acc.1 slot := by
  intro slots
  induction slots with
  | nil => intro acc; rfl
  | cons s ss ih =>
    intro acc
    show alookup (ss.foldl (resolveSlotStep ml cands)
      (resolveSlotStep ml cands acc s)).1 slot = _
    rw [ih]
    by_cases hs : s = slot
    · subst hs
      unfold resolveSlotStep
      rw [hsort]
      dsimp only
      rw [if_neg hcond]
    · exact resolveSlotStep_lookup_ne ml cands acc s slot hs

theorem resolveFold_amb_recorded (ml : List Char) (cands : List GuidCandidate)
    (slot tg : List Char) (ts : Int) (rest : List (List Char × Int))
    (hsort : slotSorted ml cands slot = (tg, ts) :: rest)
    (hcond : ¬(0 < ts ∧ 2 ≤ ts - runnerUp rest)) :
    ∀ (slots : List (List Char))
      (acc : List (List Char × List Char) ×
        List (List Char × List (List Char × Int))),
      slot ∈ slots →
      (slot, (tg, ts) :: rest) ∈ (slots.foldl (resolveSlotStep ml cands) acc).2 := by
  intro slots
  induction slots with
  | nil => intro acc h; simp at h
  | cons s ss ih =>
    intro acc hmem
    show (slot, (tg, ts) :: rest) ∈ (ss.foldl (resolveSlotStep ml cands)
      (resolveSlotStep ml cands acc s)).2
    by_cases hs : s = slot
    · subst hs
      apply resolveFold_amb_mono
      unfold resolveSlotStep
      rw [hsort]
      dsimp only
      rw [if_neg hcond]
      simp
    · rcases List.mem_cons.mp hmem with rfl | hmem'
      · exact absurd rfl hs
      · exact ih _ hmem'

/-- C7 (amended): whenever at least one candidate is present and the direct
single-candidate/single-slot path does not apply, each needed slot is
assigned its top-scoring candidate exactly when that score is strictly
positive and exceeds the runner-up score (-1 when there is no runner-up) by
at least 2; otherwise the slot is recorded as ambiguous together with the
full sorted candidate/score list and stays out of the resolved mapping. With
no candidate at all the function instead returns early, assigning nothing
and recording no ambiguity (see the counterexample). -/
theorem c7_amended (message : List Char) (slots : List (List Char))
    (slot tg : List Char) (ts : Int) (rest : List (List Char × Int))
    (hc : extractGuidCandidates message ≠ [])
    (hne : ¬((extractGuidCandidates message).length = 1 ∧ slots.length = 1))
    (hs : slot ∈ slots)
    (hsort : slotSorted (lowerStr message) (extractGuidCandidates message) slot =
      (tg, ts) :: rest) :
    ((0 < ts ∧ 2 ≤ ts - runnerUp rest) →
      alookup (resolveEntities message slots).resolved slot = some tg) ∧
    (¬(0 < ts ∧ 2 ≤ ts - runnerUp rest) →
      (slot, (tg, ts) :: rest) ∈ (resolveEntities message slots).ambiguities ∧
      alookup (resolveEntities message slots).resolved slot = none) := by
  have h1 : ¬((extractGuidCandidates message).isEmpty = true) := by
    simpa [List.isEmpty_iff] using hc
  have hred : resolveEntities message slots =
      { resolved := (slots.foldl
          (resolveSlotStep (lowerStr message) (extractGuidCandidates message))
          ([], [])).1
        candidates := extractGuidCandidates message
        heuristic := true
        ambiguities := (slots.foldl
          (resolveSlotStep (lowerStr message) (extractGuidCandidates message))
          ([], [])).2 } := by
    unfold resolveEntities
    rw [if_neg h1, if_neg hne]
  constructor
  · intro hcond
    rw [hred]
    exact resolveFold_lookup_assigned (lowerStr message)
      (extractGuidCandidates message) slot tg ts rest hsort hcond slots
      ([], []) (Or.inl hs)
  · intro hcond
    rw [hred]
    refine ⟨resolveFold_amb_recorded (lowerStr message)
      (extractGuidCandidates message) slot tg ts rest hsort hcond slots
      ([], []) hs, ?_⟩
    rw [resolveFold_lookup_unassigned (lowerStr message)
      (extractGuidCandidates message) slot tg ts rest hsort hcond slots ([], [])]
    rfl

/-- C7 witness: two candidates and one slot; device_id scores 3 against
runner-up 1, a clear margin, so the first GUID is assigned. -/
theorem c7_witness :
    alookup (resolveEntities msgTwoGuids ["device_id".data]).resolved
      "device_id".data = some guidOne :=
  (c7_amended msgTwoGuids ["device_id".data] "device_id".data guidOne 3
      [(guidTwo, 1)] (by decide) (by decide) (by decide) (by decide)).1
    (by decide)

/-! ## C1: amended substitution guarantee -/

theorem dropWhile_append_of_all (p : Char → Bool) (l : List Char) (x : Char)
    (r : List Char) (hl : ∀ c ∈ l, p c = true) (hx : p x = false) :
    (l ++ x :: r).dropWhile p = x :: r := by
  induction l with
  | nil => simp [List.dropWhile, hx]
  | cons c cs ih =>
    have hc : p c = true := hl c (by simp)
    simp only [List.cons_append, List.dropWhile, hc]
    exact ih (fun d hd => hl d (by simp [hd]))

theorem takeWhile_append_of_all (p : Char → Bool) (l : List Char) (x : Char)
    (r : List Char) (hl : ∀ c ∈ l, p c = true) (hx : p x = false) :
    (l ++ x :: r).takeWhile p = l := by
  induction l with
  | nil => simp [List.takeWhile, hx]
  | cons c cs ih =>
    have hc : p c = true := hl c (by simp)
    simp only [List.cons_append, List.takeWhile, hc]
    exact congrArg (List.cons c) (ih (fun d hd => hl d (by simp [hd])))

theorem validName_chars (n : List Char) (h : validName n = true) :
    n ≠ [] ∧ ∀ c ∈ n, isNameChar c = true := by
  match n with
  | [] => simp [validName] at h
  | c :: cs =>
    simp only [validName, Bool.and_eq_true, List.all_eq_true] at h
    refine ⟨by simp, ?_⟩
    intro d hd
    rcases List.mem_cons.mp hd with rfl | hd'
    · simp [isNameChar, h.1]
    · exact h.2 d hd'

theorem parseName_of_validName (n : List Char) (r : List Char)
    (h : validName n = true) : parseName (n ++ '>' :: r) = some (n, r) := by
  match n with
  | [] => simp [validName] at h
  | c :: cs =>
    simp only [validName, Bool.and_eq_true, List.all_eq_true] at h
    have hcs : ∀ d ∈ cs, isNameChar d = true := h.2
    simp only [List.cons_append, parseName, h.1, if_true]
    rw [dropWhile_append_of_all isNameChar cs '>' r hcs (by decide),
      takeWhile_append_of_all isNameChar cs '>' r hcs (by decide)]
    rfl

theorem findTokens_append_no_lt (s r : List Char) (h : ∀ c ∈ s, c ≠ '<') :
    findTokens (s ++ r) = findTokens r := by
  induction s with
  | nil => rfl
  | cons c cs ih =>
    rw [List.cons_append, findTokens_cons, if_neg (h c (by simp))]
    exact ih (fun d hd => h d (by simp [hd]))

theorem goodSeg_clean (s : List Char) (h : goodSeg (Seg.cleanSeg s) = true) :
    ∀ c ∈ s, c ≠ '<' ∧ c ≠ '>' := by
  simp only [goodSeg, List.all_eq_true, Bool.and_eq_true, decide_eq_true_eq] at h
  exact h

theorem segTokens_valid (segs : List Seg) (h : ∀ sg ∈ segs, goodSeg sg = true) :
    ∀ t ∈ segTokens segs, validName t = true := by
  induction segs with
  | nil => simp [segTokens]
  | cons sg rest ih =>
    cases sg with
    | cleanSeg s =>
      exact fun t ht => ih (fun x hx => h x (by simp [hx])) t ht
    | tokSeg n =>
      intro t ht
      rcases List.mem_cons.mp ht with rfl | ht'
      · exact h (Seg.tokSeg t) (by simp)
      · exact ih (fun x hx => h x (by simp [hx])) t ht'

theorem findTokens_renderSegs (segs : List Seg)
    (h : ∀ sg ∈ segs, goodSeg sg = true) :
    findTokens (renderSegs segs) = segTokens segs := by
  induction segs with
  | nil => rfl
  | cons sg rest ih =>
    cases sg with
    | cleanSeg s =>
      show findTokens (s ++ renderSegs rest) = segTokens rest
      rw [findTokens_append_no_lt s _ (fun c hc =>
        (goodSeg_clean s (h _ (by simp)) c hc).1)]
      exact ih (fun x hx => h x (by simp [hx]))
    | tokSeg n =>
      show findTokens ('<' :: ((n ++ ['>']) ++ renderSegs rest)) = _
      rw [findTokens_cons, if_pos rfl]
      have hn : validName n = true := h (Seg.tokSeg n) (by simp)
      have : (n ++ ['>']) ++ renderSegs rest = n ++ '>' :: renderSegs rest := by
        simp
      rw [this, parseName_of_validName n _ hn]
      show n :: findTokens (renderSegs rest) = n :: segTokens rest
      rw [ih (fun x hx => h x (by simp [hx]))]

theorem isPrefixOf_cons_ne (o c : Char) (os cs : List Char) (h : c ≠ o) :
    (o :: os).isPrefixOf (c :: cs) = false := by
  have hb : (o == c) = false := beq_eq_false_iff_ne.mpr (fun he => h he.symm)
  simp [List.isPrefixOf, hb]

theorem isPrefixOf_append_self (l r : List Char) : l.isPrefixOf (l ++ r) = true := by
  induction l with
  | nil => simp [List.isPrefixOf]
  | cons c cs ih => simp [List.isPrefixOf, ih]

theorem pyReplace_append_no_lt (s r os v : List Char) (h : ∀ c ∈ s, c ≠ '<') :
    pyReplace (s ++ r) '<' os v = s ++ pyReplace r '<' os v := by
  induction s with
  | nil => rfl
  | cons c cs ih =>
    rw [List.cons_append, pyReplace_cons,
      if_neg (by rw [isPrefixOf_cons_ne '<' c os _ (h c (by simp))]; simp)]
    rw [ih (fun d hd => h d (by simp [hd]))]
    rfl

theorem nameChar_ne_bracket (c : Char) (h : isNameChar c = true) :
    c ≠ '<' ∧ c ≠ '>' := by
  constructor <;> (intro he; subst he; simp [isNameChar, isAsciiAlpha,
    isAsciiUpper, isAsciiLowerCh, isDigitCh] at h)

theorem name_token_not_prefix (n : List Char) :
    ∀ (m R : List Char), (∀ c ∈ n, isNameChar c = true) →
      (∀ c ∈ m, isNameChar c = true) → n ≠ m →
      (n ++ ['>']).isPrefixOf (m ++ '>' :: R) = false := by
  induction n with
  | nil =>
    intro m R _ hm hne
    match m with
    | [] => exact absurd rfl hne
    | c :: m' =>
      have hc : c ≠ '>' := (fun he => by
        have := hm c (by simp)
        rw [he] at this
        exact absurd this (by decide))
      exact isPrefixOf_cons_ne '>' c [] _ hc
  | cons a n' ih =>
    intro m R hn hm hne
    match m with
    | [] =>
      have ha : a ≠ '>' := (fun he => by
        have := hn a (by simp)
        rw [he] at this
        exact absurd this (by decide))
      exact isPrefixOf_cons_ne a '>' _ _ (fun he => ha he.symm)
    | b :: m' =>
      by_cases hab : a = b
      · subst hab
        have hrec := ih m' R (fun c hc => hn c (by simp [hc]))
          (fun c hc => hm c (by simp [hc]))
          (fun he => hne (by rw [he]))
        show ((a :: (n' ++ ['>'])).isPrefixOf (a :: (m' ++ '>' :: R))) = false
        simp only [List.isPrefixOf, beq_self_eq_true, Bool.true_and]
        exact hrec
      · exact isPrefixOf_cons_ne a b _ _ (fun he => hab he.symm)

theorem subSegs_tok_mem (t v : List Char) (segs : List Seg) (m : List Char)
    (h : Seg.tokSeg m ∈ subSegs t v segs) : Seg.tokSeg m ∈ segs ∧ m ≠ t := by
  induction segs with
  | nil => simp [subSegs] at h
  | cons sg rest ih =>
    rcases List.mem_cons.mp h with he | h'
    · cases sg with
      | cleanSeg s => simp [subSeg] at he
      | tokSeg m' =>
        by_cases hmt : m' = t
        · simp [subSeg, hmt] at he
        · simp only [subSeg, if_neg hmt] at he
          cases he
          exact ⟨by simp, hmt⟩
    · obtain ⟨hin, hne⟩ := ih h'
      exact ⟨by simp [hin], hne⟩

theorem subSegs_good (t v : List Char) (segs : List Seg)
    (hsegs : ∀ sg ∈ segs, goodSeg sg = true)
    (hv : ∀ c ∈ v, c ≠ '<' ∧ c ≠ '>') :
    ∀ sg ∈ subSegs t v segs, goodSeg sg = true := by
  intro sg hsg
  obtain ⟨sg0, hsg0, rfl⟩ := List.mem_map.mp hsg
  cases sg0 with
  | cleanSeg s => exact hsegs _ hsg0
  | tokSeg m =>
    by_cases hmt : m = t
    · simp only [subSeg, if_pos hmt, goodSeg, List.all_eq_true]
      intro c hc
      simp [Bool.and_eq_true, decide_eq_true_eq]
      exact (hv c hc)
    · simp only [subSeg, if_neg hmt]
      exact hsegs _ hsg0

/-- The heart of the amended C1: whole-text replacement of the token <n> on a
well-formed template substitutes exactly the token segments named n. -/
theorem replace_render (n v : List Char) (segs : List Seg)
    (hsegs : ∀ sg ∈ segs, goodSeg sg = true) (hn : validName n = true) :
    pyReplace (renderSegs segs) '<' (n ++ ['>']) v =
      renderSegs (subSegs n v segs) := by
  induction segs with
  | nil => rfl
  | cons sg rest ih =>
    have hrest : ∀ sg ∈ rest, goodSeg sg = true :=
      fun x hx => hsegs x (by simp [hx])
    cases sg with
    | cleanSeg s =>
      show pyReplace (s ++ renderSegs rest) '<' (n ++ ['>']) v = _
      rw [pyReplace_append_no_lt s _ _ _ (fun c hc =>
        (goodSeg_clean s (hsegs _ (by simp)) c hc).1), ih hrest]
      rfl
    | tokSeg m =>
      have hm : validName m = true := hsegs (Seg.tokSeg m) (by simp)
      by_cases hmn : m = n
      · subst hmn
        show pyReplace ('<' :: ((m ++ ['>']) ++ renderSegs rest)) '<'
          (m ++ ['>']) v = _
        have hpre : ('<' :: (m ++ ['>'])).isPrefixOf
            ('<' :: ((m ++ ['>']) ++ renderSegs rest)) = true := by
          simp only [List.isPrefixOf, beq_self_eq_true, Bool.true_and]
          exact isPrefixOf_append_self _ _
        rw [pyReplace_cons, if_pos hpre]
        have hdrop : (('<' :: ((m ++ ['>']) ++ renderSegs rest)).drop
            ((m ++ ['>']).length + 1)) = renderSegs rest := by
          have : ('<' :: ((m ++ ['>']) ++ renderSegs rest)) =
              ('<' :: (m ++ ['>'])) ++ renderSegs rest := by simp
          rw [this]
          have hlen : (m ++ ['>']).length + 1 = ('<' :: (m ++ ['>'])).length := by
            simp
          rw [hlen, List.drop_left]
        rw [hdrop, ih hrest]
        show v ++ renderSegs (subSegs m v rest) =
          renderSegs (subSeg m v (Seg.tokSeg m) :: subSegs m v rest)
        simp [subSeg, renderSegs, renderSeg]
      · show pyReplace ('<' :: ((m ++ ['>']) ++ renderSegs rest)) '<'
          (n ++ ['>']) v = _
        have hnot : ((n ++ ['>']).isPrefixOf ((m ++ ['>']) ++ renderSegs rest))
            = false := by
          have : (m ++ ['>']) ++ renderSegs rest = m ++ '>' :: renderSegs rest := by
            simp
          rw [this]
          exact name_token_not_prefix n m (renderSegs rest)
            (validName_chars n hn).2 (validName_chars m hm).2
            (fun he => hmn he.symm)
        rw [pyReplace_cons, if_neg (by
          simp only [List.isPrefixOf, beq_self_eq_true, Bool.true_and, hnot]
          simp)]
        have hstep : (m ++ ['>']) ++ renderSegs rest = m ++ '>' :: renderSegs rest := by
          simp
        rw [hstep, pyReplace_append_no_lt m _ _ _ (fun c hc =>
          (nameChar_ne_bracket c ((validName_chars m hm).2 c hc)).1)]
        rw [pyReplace_cons, if_neg (by
          rw [isPrefixOf_cons_ne '<' '>' _ _ (by decide)]
          simp)]
        rw [ih hrest]
        show '<' :: (m ++ '>' :: renderSegs (subSegs n v rest)) =
          renderSegs (subSeg n v (Seg.tokSeg m) :: subSegs n v rest)
        simp [subSeg, if_neg hmn, renderSegs, renderSeg]

theorem alookup_mem {β : Type} (d : List (List Char × β)) (k : List Char) (v : β)
    (h : alookup d k = some v) : (k, v) ∈ d := by
  induction d with
  | nil => simp [alookup] at h
  | cons p t ih =>
    obtain ⟨k0, v0⟩ := p
    simp only [alookup] at h
    split at h
    · cases h
      rename_i hk
      subst hk
      simp
    · simp [ih h]

theorem substLoop_spec (vals : List (List Char × List Char))
    (hv : ∀ p ∈ vals, ∀ c ∈ p.2, c ≠ '<' ∧ c ≠ '>') :
    ∀ (ts : List (List Char)) (segs : List Seg)
      (used : List (List Char × List Char)) (ws : List (List Char)),
      (∀ sg ∈ segs, goodSeg sg = true) → (∀ t ∈ ts, validName t = true) →
      (substLoop vals ts (renderSegs segs) used ws).queryText =
        renderSegs (applyToks vals ts segs) ∧
      (substLoop vals ts (renderSegs segs) used ws).warnings =
        ws ++ (ts.filter (fun t => (alookup vals t).isNone)).map warnMsg := by
  intro ts
  induction ts with
  | nil =>
    intro segs used ws _ _
    exact ⟨rfl, by simp [substLoop, applyToks]⟩
  | cons t ts' ih =>
    intro segs used ws hsegs hts
    have hvt : validName t = true := hts t (by simp)
    have hts' : ∀ x ∈ ts', validName x = true := fun x hx => hts x (by simp [hx])
    cases hlk : alookup vals t with
    | some v =>
      have hvv : ∀ c ∈ v, c ≠ '<' ∧ c ≠ '>' :=
        fun c hc => hv (t, v) (alookup_mem vals t v hlk) c hc
      have hred : substLoop vals (t :: ts') (renderSegs segs) used ws =
          substLoop vals ts' (renderSegs (subSegs t v segs))
            (dictInsert used t v) ws := by
        simp only [substLoop, hlk]
        rw [replace_render t v segs hsegs hvt]
      have hih := ih (subSegs t v segs) (dictInsert used t v) ws
        (subSegs_good t v segs hsegs hvv) hts'
      rw [hred]
      constructor
      · rw [hih.1, show applyToks vals (t :: ts') segs =
          applyToks vals ts' (subSegs t v segs) from by simp [applyToks, hlk]]
      · rw [hih.2, show (t :: ts').filter (fun x => (alookup vals x).isNone) =
          ts'.filter (fun x => (alookup vals x).isNone) from by
            simp [List.filter_cons, hlk]]
    | none =>
      have hred : substLoop vals (t :: ts') (renderSegs segs) used ws =
          substLoop vals ts' (renderSegs segs) used (ws ++ [warnMsg t]) := by
        simp only [substLoop, hlk]
      have hih := ih segs used (ws ++ [warnMsg t]) hsegs hts'
      rw [hred]
      constructor
      · rw [hih.1, show applyToks vals (t :: ts') segs = applyToks vals ts' segs
          from by simp [applyToks, hlk]]
      · rw [hih.2]
        simp [List.filter_cons, hlk]

theorem applyToks_tok_mem (vals : List (List Char × List Char)) :
    ∀ (ts : List (List Char)) (segs : List Seg) (m : List Char),
      Seg.tokSeg m ∈ applyToks vals ts segs →
      Seg.tokSeg m ∈ segs ∧ ¬(m ∈ ts ∧ (alookup vals m).isSome = true) := by
  intro ts
  induction ts with
  | nil =>
    intro segs m h
    exact ⟨h, by simp⟩
  | cons t ts' ih =>
    intro segs m h
    cases hlk : alookup vals t with
    | some v =>
      have happ : applyToks vals (t :: ts') segs =
          applyToks vals ts' (subSegs t v segs) := by
        simp [applyToks, hlk]
      rw [happ] at h
      obtain ⟨hin, hns⟩ := ih (subSegs t v segs) m h
      obtain ⟨hin0, hmt⟩ := subSegs_tok_mem t v segs m hin
      refine ⟨hin0, ?_⟩
      rintro ⟨hmem, hsup⟩
      rcases List.mem_cons.mp hmem with rfl | hmem'
      · exact hmt rfl
      · exact hns ⟨hmem', hsup⟩
    | none =>
      have happ : applyToks vals (t :: ts') segs = applyToks vals ts' segs := by
        simp [applyToks, hlk]
      rw [happ] at h
      obtain ⟨hin, hns⟩ := ih segs m h
      refine ⟨hin, ?_⟩
      rintro ⟨hmem, hsup⟩
      rcases List.mem_cons.mp hmem with rfl | hmem'
      · rw [hlk] at hsup
        simp at hsup
      · exact hns ⟨hmem', hsup⟩

theorem applyToks_good (vals : List (List Char × List Char))
    (hv : ∀ p ∈ vals, ∀ c ∈ p.2, c ≠ '<' ∧ c ≠ '>') :
    ∀ (ts : List (List Char)) (segs : List Seg),
      (∀ sg ∈ segs, goodSeg sg = true) →
      ∀ sg ∈ applyToks vals ts segs, goodSeg sg = true := by
  intro ts
  induction ts with
  | nil => intro segs h; exact h
  | cons t ts' ih =>
    intro segs h
    cases hlk : alookup vals t with
    | some v =>
      have happ : applyToks vals (t :: ts') segs =
          applyToks vals ts' (subSegs t v segs) := by
        simp [applyToks, hlk]
      rw [happ]
      exact ih _ (subSegs_good t v segs h
        (fun c hc => hv (t, v) (alookup_mem vals t v hlk) c hc))
    | none =>
      have happ : applyToks vals (t :: ts') segs = applyToks vals ts' segs := by
        simp [applyToks, hlk]
      rw [happ]
      exact ih _ h

theorem segTokens_mem (segs : List Seg) (m : List Char)
    (h : Seg.tokSeg m ∈ segs) : m ∈ segTokens segs := by
  induction segs with
  | nil => simp at h
  | cons sg rest ih =>
    rcases List.mem_cons.mp h with rfl | h'
    · simp [segTokens]
    · cases sg with
      | cleanSeg s => exact ih h'
      | tokSeg n => simp [segTokens, ih h']

theorem renderSegs_no_lt (segs : List Seg)
    (hgood : ∀ sg ∈ segs, goodSeg sg = true)
    (hnotok : ∀ m, Seg.tokSeg m ∉ segs) :
    ∀ c ∈ renderSegs segs, c ≠ '<' := by
  induction segs with
  | nil => simp [renderSegs]
  | cons sg rest ih =>
    cases sg with
    | cleanSeg s =>
      intro c hc
      rcases List.mem_append.mp hc with hcs | hcr
      · exact (goodSeg_clean s (hgood _ (by simp)) c hcs).1
      · exact ih (fun x hx => hgood x (by simp [hx]))
          (fun m hm => hnotok m (by simp [hm])) c hcr
    | tokSeg n =>
      intro c hc
      exact absurd (show Seg.tokSeg n ∈ Seg.tokSeg n :: rest from by simp)
        (hnotok n)

theorem findTokens_no_lt (l : List Char) (h : ∀ c ∈ l, c ≠ '<') :
    findTokens l = [] := by
  induction l with
  | nil => rfl
  | cons c cs ih =>
    rw [findTokens_cons, if_neg (h c (by simp))]
    exact ih (fun d hd => h d (by simp [hd]))

/-- C1 (amended): for a query text whose angle brackets all delimit
well-formed placeholder tokens and supplied values that contain no angle
bracket, substitute_placeholders with every occurring placeholder name
supplied returns a query text with no remaining placeholder token at all
(in particular none for a supplied name) and an empty warning list. Without
those provisos the guarantee fails (see the counterexample, where a supplied
value is itself a token). -/
theorem c1_amended (segs : List Seg) (vals : List (List Char × List Char))
    (hsegs : ∀ sg ∈ segs, goodSeg sg = true)
    (hvals : ∀ p ∈ vals, ∀ c ∈ p.2, c ≠ '<' ∧ c ≠ '>')
    (hsup : ∀ t ∈ segTokens segs, (alookup vals t).isSome = true) :
    findTokens ((substitutePlaceholders (renderSegs segs) vals).queryText) = [] ∧
    (substitutePlaceholders (renderSegs segs) vals).warnings = [] := by
  have hft : findTokens (renderSegs segs) = segTokens segs :=
    findTokens_renderSegs segs hsegs
  have hvalid : ∀ t ∈ segTokens segs, validName t = true :=
    segTokens_valid segs hsegs
  have hloop := substLoop_spec vals hvals (segTokens segs) segs [] [] hsegs hvalid
  constructor
  · show findTokens ((substLoop vals (findTokens (renderSegs segs))
      (renderSegs segs) [] []).queryText) = []
    rw [hft, hloop.1]
    apply findTokens_no_lt
    apply renderSegs_no_lt
    · exact applyToks_good vals hvals (segTokens segs) segs hsegs
    · intro m hm
      obtain ⟨hin, hns⟩ := applyToks_tok_mem vals (segTokens segs) segs m hm
      exact hns ⟨segTokens_mem segs m hin, hsup m (segTokens_mem segs m hin)⟩
  · show (substLoop vals (findTokens (renderSegs segs))
      (renderSegs segs) [] []).warnings = []
    rw [hft, hloop.2]
    have hfil : (segTokens segs).filter (fun t => (alookup vals t).isNone) = [] := by
      rw [List.filter_eq_nil_iff]
      intro t ht
      have hsome := hsup t ht
      cases h : alookup vals t with
      | none => rw [h] at hsome; simp at hsome
      | some v => simp
    rw [hfil]
    rfl

/-- C1 witness: the amended guarantee at a concrete template
<A> x <B> with token-free values supplied for both names. -/
theorem c1_witness :
    findTokens ((substitutePlaceholders
      (renderSegs [Seg.tokSeg "A".data, Seg.cleanSeg " x ".data,
        Seg.tokSeg "B".data])
      [("A".data, "1".data), ("B".data, "2".data)]).queryText) = [] ∧
    (substitutePlaceholders
      (renderSegs [Seg.tokSeg "A".data, Seg.cleanSeg " x ".data,
        Seg.tokSeg "B".data])
      [("A".data, "1".data), ("B".data, "2".data)]).warnings = [] :=
  c1_amended [Seg.tokSeg "A".data, Seg.cleanSeg " x ".data, Seg.tokSeg "B".data]
    [("A".data, "1".data), ("B".data, "2".data)]
    (by decide) (by decide) (by decide)
